import Mathlib

/-!
Verification development for the pisces waveform I/O core: the e-compression
codec (src/pisces/io/src/e_compression/e_compression.c) and the datatype
transcoder (src/pisces/io/src/convert/convdata.c, g2s4.c, f4f8t4t8.c).

The C code is shallowly embedded.  Machine integers are modelled as `Nat`
(unsigned 32-bit bit patterns, reduced mod 2 ^ 32 where C arithmetic wraps)
and `Int` (signed 32-bit values in [-2 ^ 31, 2 ^ 31)).  Byte streams are
`List Nat` with entries below 256; the compressed stream is big-endian, as
the C code requires.  Output arrays written through pointers are modelled as
accumulated lists; where the C code can read array cells it never wrote
(or cells before the array), the ambient memory is a function `Int → Nat`.
-/

namespace Pisces

/-- Reduce an integer to the signed 32-bit two's-complement range. -/
def wrap32 (x : Int) : Int := (x + 2 ^ 31) % 2 ^ 32 - 2 ^ 31

/-- Unsigned 32-bit bit pattern of a (signed) integer. -/
def toU32 (x : Int) : Nat := (x % 2 ^ 32).toNat

/-- Signed 32-bit value of an unsigned bit pattern below 2 ^ 32. -/
def ofU32 (n : Nat) : Int := if n < 2 ^ 31 then (n : Int) else (n : Int) - 2 ^ 32

/-- Arithmetic (sign-propagating) right shift of a 32-bit pattern, the
effect of C `>>` on a negative or nonnegative `int32_t`. -/
def sar32 (x : Nat) (k : Nat) : Nat := toU32 (ofU32 x / 2 ^ k)

/-- Left shift of a 32-bit pattern, wrapping: the bit-pattern effect of
C `<<` on an `int32_t` or `uint32_t`. -/
def shl32 (x : Nat) (k : Nat) : Nat := (x <<< k) % 2 ^ 32

/-- Big-endian 16-bit read at byte offset `i` (C `ntohs` of a `uint16_t`). -/
def readU16 (b : List Nat) (i : Nat) : Nat := 256 * b.getD i 0 + b.getD (i + 1) 0

/-- Big-endian 32-bit read at byte offset `i` (C `ntohl` of a `uint32_t`). -/
def readU32 (b : List Nat) (i : Nat) : Nat :=
  ((256 * b.getD i 0 + b.getD (i + 1) 0) * 256 + b.getD (i + 2) 0) * 256 + b.getD (i + 3) 0

/-- Big-endian bytes of a 16-bit value (C `htons` after `uint16_t` cast). -/
def be16 (x : Nat) : List Nat := [x / 256 % 256, x % 256]

/-- Big-endian bytes of a 32-bit value (C `htonl`). -/
def be32 (x : Nat) : List Nat := [x / 2 ^ 24 % 256, x / 2 ^ 16 % 256, x / 256 % 256, x % 256]

/-- Concatenated big-endian bytes of a list of 32-bit words. -/
def wordsToBytes (ws : List Nat) : List Nat := ws.flatMap be32

/-- All-zero ambient memory, the initial contents of the C static buffers. -/
def memZero : Int → Nat := fun _ => 0

/-! Return codes and constants from e_compression.h. -/

def EC_SUCCESS : Int := 0
def EC_FAILED : Int := 1
def EC_LENGTH_ERROR : Int := 2
def EC_SAMP_ERROR : Int := 3
def EC_DIFF_ERROR : Int := 4
def EC_CHECK_ERROR : Int := 5
def EC_ARG_ERROR : Int := 6
def EC_TYPE_ERROR : Int := 7
def EC_MEMORY_ERROR : Int := 8

def EC_FULL_END : Int := 0
def EC_SHORT_END : Int := 1
def EC_MAX_BUFFER : Nat := 16384
def EC_MAX_NDIFF : Nat := 4
def EC_UNCOMP : Nat := 0x10000000

/-- Translation of the first 4 bits of a packet word to its index type
(array `index_map` in e_compression.c). -/
def index_map : List Nat := [0, 0, 0, 0, 0, 0, 0, 0, 1, 1, 1, 1, 2, 3, 4, 5]

/-- Packet decode loop of `block_e_decomp`.  `b` is the whole block (the
byte stream starting at the block header), `off` the byte offset of the next
packet word, `samps` the samples decoded so far, `cells` the 32-bit cells
written to the output array so far (`*pout++` writes).  Each case translates
the mask/shift expressions of the corresponding `switch` case literally;
`(hin.s & m) << a >> b` on the signed 32-bit view becomes
`sar32 (shl32 (w &&& m) a) b`, and the two cross-word samples of cases 0, 3
and 4 are the bitwise or of the two parts combined by `*pout` and
`*pout++ |=`.  The first argument after `b` is a structural fuel counter:
every iteration decodes at least one sample, so fuel `nsamp` (as passed by
`block_e_decomp`) is never exhausted and the fuel-out arm is unreachable. -/
def packetLoop (b : List Nat) : Nat → Nat → Nat → Nat → List Nat → Nat × List Nat
  | 0, _, samps, _, cells => (samps, cells)
  | fuel + 1, off, samps, nsamp, cells =>
    if samps < nsamp then
      let w := readU32 b off
      match index_map.getD (w >>> 28) 0 with
      | 0 =>
        let w2 := readU32 b (off + 4)
        let e1 := sar32 (shl32 (w &&& 0x7fc00000) 1) 23
        let e2 := sar32 (shl32 (w &&& 0x003fe000) 10) 23
        let e3 := sar32 (shl32 (w &&& 0x00001ff0) 19) 23
        let e4 := sar32 (shl32 (w &&& 0x0000000f) 28) 23 ||| sar32 (w2 &&& 0xf8000000) 27
        let e5 := sar32 (shl32 (w2 &&& 0x07fc0000) 5) 23
        let e6 := sar32 (shl32 (w2 &&& 0x0003fe00) 14) 23
        let e7 := sar32 (shl32 (w2 &&& 0x000001ff) 23) 23
        packetLoop b fuel (off + 8) (samps + 7) nsamp (cells ++ [e1, e2, e3, e4, e5, e6, e7])
      | 1 =>
        let e1 := sar32 (shl32 (w &&& 0x3ff00000) 2) 22
        let e2 := sar32 (shl32 (w &&& 0x000ffc00) 12) 22
        let e3 := sar32 (shl32 (w &&& 0x000003ff) 22) 22
        packetLoop b fuel (off + 4) (samps + 3) nsamp (cells ++ [e1, e2, e3])
      | 2 =>
        let e1 := sar32 (shl32 (w &&& 0x0fe00000) 4) 25
        let e2 := sar32 (shl32 (w &&& 0x001fc000) 11) 25
        let e3 := sar32 (shl32 (w &&& 0x00003f80) 18) 25
        let e4 := sar32 (shl32 (w &&& 0x0000007f) 25) 25
        packetLoop b fuel (off + 4) (samps + 4) nsamp (cells ++ [e1, e2, e3, e4])
      | 3 =>
        let w2 := readU32 b (off + 4)
        let e1 := sar32 (shl32 (w &&& 0x0fff0000) 4) 20
        let e2 := sar32 (shl32 (w &&& 0x0000fff0) 16) 20
        let e3 := sar32 (shl32 (w &&& 0x0000000f) 28) 20 ||| sar32 (w2 &&& 0xff000000) 24
        let e4 := sar32 (shl32 (w2 &&& 0x00fff000) 8) 20
        let e5 := sar32 (shl32 (w2 &&& 0x00000fff) 20) 20
        packetLoop b fuel (off + 8) (samps + 5) nsamp (cells ++ [e1, e2, e3, e4, e5])
      | 4 =>
        let w2 := readU32 b (off + 4)
        let e1 := sar32 (shl32 (w &&& 0x0fffe000) 4) 17
        let e2 := sar32 (shl32 (w &&& 0x00001fff) 19) 17 ||| sar32 (w2 &&& 0xc0000000) 30
        let e3 := sar32 (shl32 (w2 &&& 0x3fff8000) 2) 17
        let e4 := sar32 (shl32 (w2 &&& 0x00007fff) 17) 17
        packetLoop b fuel (off + 8) (samps + 4) nsamp (cells ++ [e1, e2, e3, e4])
      | _ =>
        let e1 := sar32 (shl32 (w &&& 0x0fffffff) 4) 4
        packetLoop b fuel (off + 4) (samps + 1) nsamp (cells ++ [e1])
    else (samps, cells)

/-- Inner sweep of one un-differencing pass: `*pout += pout[-1]` running left
to right over the already-updated predecessor, on `uint32_t` cells. -/
def undiffGo (prev : Nat) : List Nat → List Nat
  | [] => []
  | y :: ys => ((prev + y) % 2 ^ 32) :: undiffGo ((prev + y) % 2 ^ 32) ys

/-- One un-differencing pass over the first `nsamp` cells (the loop
`for (i = 1; i < nsamp; ...) *pout += pout[-1]`; when this runs the cell
list has exactly `nsamp` entries, so the pass covers the whole list). -/
def undiffPass (l : List Nat) : List Nat :=
  match l with
  | [] => []
  | x :: xs => x :: undiffGo x xs

/-- The `while (ndiff--)` loop applying `undiffPass` `k` times. -/
def undiffN : Nat → List Nat → List Nat
  | 0, l => l
  | k + 1, l => undiffN k (undiffPass l)

/-- Read of an output-array cell at (possibly negative) index `i`: the cells
the function has written shadow the ambient memory `mem`. -/
def readCell (cells : List Nat) (mem : Int → Nat) (i : Int) : Nat :=
  if 0 ≤ i ∧ i < (cells.length : Int) then cells.getD i.toNat 0 else mem i

/-- Result of `block_e_decomp`: return code, the 32-bit cells written to the
output array, and the `*nsamp` / `*nbyte` header outputs. -/
structure BlockRes where
  code : Int
  out : List Nat
  nsamp : Nat
  nbyte : Nat
deriving DecidableEq, Repr

/-- Embedding of `block_e_decomp` (e_compression.c).  `b` is the byte stream
starting at the block header; `mem` is the ambient contents of the output
array (and the memory just before it) where the function reads cells it
never wrote.  The check value is `EC_MAKECHECK` of a `uint32_t`, whose
unsigned shifts cancel, leaving the low 24 bits; the final comparison
converts the signed `check` to `uint32_t`, so both sides are the low 24
bits.  After the packet loop the write pointer `pout` sits `samps` cells
into the array; each un-differencing pass resets it to cell 1 and leaves it
at cell `max nsamp 1`; `pout[-1]` is read through `readCell`. -/
def block_e_decomp (b : List Nat) (mem : Int → Nat) : BlockRes :=
  if readU16 b 2 > EC_MAX_BUFFER / 4 then ⟨EC_SAMP_ERROR, [], readU16 b 2, readU16 b 0⟩
  else if readU16 b 0 < 8 ∨ readU16 b 0 > EC_MAX_BUFFER then
    ⟨EC_LENGTH_ERROR, [], readU16 b 2, readU16 b 0⟩
  else if readU16 b 0 < readU16 b 2 + 8 ∨ readU16 b 0 > (readU16 b 2 + 2) * 4 then
    ⟨EC_SAMP_ERROR, [], readU16 b 2, readU16 b 0⟩
  else if readU32 b 4 &&& EC_UNCOMP ≠ 0 then
    if readU16 b 0 ≠ (readU16 b 2 + 2) * 4 then
      ⟨EC_LENGTH_ERROR, [], readU16 b 2, readU16 b 0⟩
    else
      ⟨EC_SUCCESS, (List.range (readU16 b 2)).map (fun k => readU32 b (8 + 4 * k)),
        readU16 b 2, readU16 b 0⟩
  else if (readU32 b 4 &&& 0x0f000000) >>> 24 > EC_MAX_NDIFF then
    ⟨EC_DIFF_ERROR, [], readU16 b 2, readU16 b 0⟩
  else if (packetLoop b (readU16 b 2) 8 0 (readU16 b 2) []).1 ≠ readU16 b 2 then
    ⟨EC_SAMP_ERROR, (packetLoop b (readU16 b 2) 8 0 (readU16 b 2) []).2,
      readU16 b 2, readU16 b 0⟩
  else if readU32 b 4 &&& 0x00ffffff ≠
      readCell
        (undiffN ((readU32 b 4 &&& 0x0f000000) >>> 24)
          (packetLoop b (readU16 b 2) 8 0 (readU16 b 2) []).2) mem
        ((if (readU32 b 4 &&& 0x0f000000) >>> 24 = 0 then
            ((packetLoop b (readU16 b 2) 8 0 (readU16 b 2) []).1 : Int)
          else max ((readU16 b 2 : Nat) : Int) 1) - 1) &&& 0x00ffffff then
    ⟨EC_CHECK_ERROR,
      undiffN ((readU32 b 4 &&& 0x0f000000) >>> 24)
        (packetLoop b (readU16 b 2) 8 0 (readU16 b 2) []).2,
      readU16 b 2, readU16 b 0⟩
  else
    ⟨EC_SUCCESS,
      undiffN ((readU32 b 4 &&& 0x0f000000) >>> 24)
        (packetLoop b (readU16 b 2) 8 0 (readU16 b 2) []).2,
      readU16 b 2, readU16 b 0⟩

/-- Block-header validation performed by `e_decomp` before the first block
and before every further block (e_compression.c lines 181-192 and the two
identical copies): range checks on `nsamp` and `nbyte`, their relation, the
multiple-of-four check, and the `(in + packbyte) > lastin` bounds check
against `lastin = in + inbyte / 4`.  Positions are counted in 32-bit words
from the start of the stream.  On success it returns
`(packbyte / 4, packsamp)`. -/
def hdrAt (inb : List Nat) (inwords pos : Nat) : Except Int (Nat × Nat) :=
  let packbyte := readU16 inb (4 * pos)
  let packsamp := readU16 inb (4 * pos + 2)
  if packsamp > EC_MAX_BUFFER / 4 then .error EC_SAMP_ERROR
  else if packbyte < 8 ∨ packbyte > EC_MAX_BUFFER then .error EC_LENGTH_ERROR
  else if packbyte < packsamp + 8 ∨ packbyte > (packsamp + 2) * 4 then .error EC_SAMP_ERROR
  else if packbyte % 4 ≠ 0 then .error EC_LENGTH_ERROR
  else if pos + packbyte / 4 > inwords then .error EC_LENGTH_ERROR
  else .ok (packbyte / 4, packsamp)

/-- Skip loop of `e_decomp`: advance whole blocks while their cumulative
sample count stays at or below `out0`, re-validating each new header.  The
current block at word position `pos` has already been validated to
`(pw, ps)`.  Returns the position, header and skipped-sample count of the
first block that contains sample `out0`.  The first `Nat` argument is a
structural fuel counter: every iteration advances the block position by at
least two words inside the validated `inwords`, so the fuel `inwords + 1`
passed by `e_decomp` is never exhausted and the fuel-out arm is
unreachable. -/
def skipLoop (inb : List Nat) (inwords : Nat) (out0 : Int) :
    Nat → Nat → Nat → Nat → Nat → Except Int (Nat × Nat × Nat × Nat)
  | 0, pos, pw, ps, skipsamp => .ok (pos, pw, ps, skipsamp)
  | fuel + 1, pos, pw, ps, skipsamp =>
    if (skipsamp : Int) + ps ≤ out0 then
      match hdrAt inb inwords (pos + pw) with
      | .error e => .error e
      | .ok (pw2, ps2) => skipLoop inb inwords out0 fuel (pos + pw) pw2 ps2 (skipsamp + ps)
    else .ok (pos, pw, ps, skipsamp)

/-- Main copy loop of `e_decomp` plus the trailing-fragment step.  The block
at word position `pos` has a validated header `(pw, ps)`; `nsampAcc` samples
have been copied to the output so far (list `written`), `unbuf0` is the
offset into the current decoded block of the first wanted sample, and `umem`
is the current contents of the static scratch array `unbuf` (updated by each
`block_e_decomp` call, which the following `memcpy` reads).  The first
`Nat` argument is a structural fuel counter, never exhausted for the same
reason as in `skipLoop`. -/
def copyLoop (inb : List Nat) (inwords : Nat) (outsamp : Int) :
    Nat → Nat → Nat → Nat → Int → Nat → List Int → (Int → Nat) → Int × List Int
  | 0, _, _, _, _, _, written, _ => (EC_FAILED, written)
  | fuel + 1, pos, pw, ps, nsampAcc, unbuf0, written, umem =>
    if nsampAcc + ps - unbuf0 ≤ outsamp then
      if (block_e_decomp (inb.drop (4 * pos)) umem).code ≠ EC_SUCCESS then
        ((block_e_decomp (inb.drop (4 * pos)) umem).code, written)
      else if nsampAcc + ps - unbuf0 = outsamp then
        (EC_SUCCESS, written ++ (List.range (ps - unbuf0)).map fun k =>
          ofU32 (readCell (block_e_decomp (inb.drop (4 * pos)) umem).out umem
            ((unbuf0 + k : Nat) : Int)))
      else
        match hdrAt inb inwords (pos + pw) with
        | .error e =>
          (e, written ++ (List.range (ps - unbuf0)).map fun k =>
            ofU32 (readCell (block_e_decomp (inb.drop (4 * pos)) umem).out umem
              ((unbuf0 + k : Nat) : Int)))
        | .ok (pw2, ps2) =>
          copyLoop inb inwords outsamp fuel (pos + pw) pw2 ps2 (nsampAcc + ps - unbuf0) 0
            (written ++ (List.range (ps - unbuf0)).map fun k =>
              ofU32 (readCell (block_e_decomp (inb.drop (4 * pos)) umem).out umem
                ((unbuf0 + k : Nat) : Int)))
            (readCell (block_e_decomp (inb.drop (4 * pos)) umem).out umem)
    else
      if nsampAcc < outsamp then
        if (block_e_decomp (inb.drop (4 * pos)) umem).code ≠ EC_SUCCESS then
          ((block_e_decomp (inb.drop (4 * pos)) umem).code, written)
        else
          (EC_SUCCESS, written ++ (List.range (outsamp - nsampAcc).toNat).map fun k =>
            ofU32 (readCell (block_e_decomp (inb.drop (4 * pos)) umem).out umem
              ((unbuf0 + k : Nat) : Int)))
      else (EC_SUCCESS, written)

/-- Embedding of `e_decomp` (e_compression.c).  `inOpt` is the compressed
input buffer (`none` models a NULL pointer), `outNull` a NULL output array,
and `umem` the contents of the static scratch array `unbuf` at entry.  The
result is the return code and the samples written to the output array, in
order. -/
def e_decomp (inOpt : Option (List Nat)) (outNull : Bool) (insamp inbyte out0 outsamp : Int)
    (umem : Int → Nat) : Int × List Int :=
  if outsamp = 0 then (EC_SUCCESS, [])
  else if inOpt.isNone ∨ outNull ∨ insamp ≤ 0 ∨ inbyte ≤ 0 ∨ out0 < 0 ∨ out0 ≥ insamp ∨
      outsamp ≤ 0 ∨ out0 + outsamp > insamp then (EC_ARG_ERROR, [])
  else
    let inb := inOpt.getD []
    let inwords := inbyte.toNat / 4
    match hdrAt inb inwords 0 with
    | .error e => (e, [])
    | .ok x =>
      match skipLoop inb inwords out0 (inwords + 1) 0 x.1 x.2 0 with
      | .error e => (e, [])
      | .ok y =>
        copyLoop inb inwords outsamp (inwords + 1) y.1 y.2.1 y.2.2.1 0
          (out0 - y.2.2.2).toNat [] umem

/-- Well-formedness of a compressed stream, from word position `pos`, for
`remaining` more samples: the stream parses into consecutive blocks whose
headers pass every `e_decomp` check, each carrying at least one sample and
decoding successfully with `block_e_decomp`, until `remaining` samples are
covered.  (Blocks with at least one sample decode independently of the
scratch memory, so the fixed memory `memZero` loses no generality.)  The
first `Nat` argument is a structural fuel counter; every block covers at
least one sample, so fuel `remaining` suffices. -/
def wfChain (inb : List Nat) (inwords : Nat) : Nat → Nat → Nat → Bool
  | 0, _, remaining => remaining = 0
  | fuel + 1, pos, remaining =>
    if remaining = 0 then true
    else
      match hdrAt inb inwords pos with
      | .error _ => false
      | .ok (pw, ps) =>
        if ps = 0 then false
        else if (block_e_decomp (inb.drop (4 * pos)) memZero).code = EC_SUCCESS then
          wfChain inb inwords fuel (pos + pw) (remaining - ps)
        else false

/-- Concatenated decoded samples of the block chain starting at word
position `pos`, while `remaining` samples are still to be covered; fuel
first, as in `wfChain`. -/
def chainOut (inb : List Nat) (inwords : Nat) : Nat → Nat → Nat → List Int
  | 0, _, _ => []
  | fuel + 1, pos, remaining =>
    if remaining = 0 then []
    else
      match hdrAt inb inwords pos with
      | .error _ => []
      | .ok (pw, ps) =>
        if ps = 0 then []
        else
          (block_e_decomp (inb.drop (4 * pos)) memZero).out.map ofU32 ++
            chainOut inb inwords fuel (pos + pw) (remaining - ps)

/-- The `(uint32_t)ABS(x)` of e_compression.c on an `int32_t` value: for
`x = -2 ^ 31` the C negation wraps back to `-2 ^ 31`, whose unsigned cast is
`2 ^ 31`. -/
def absU (x : Int) : Nat := toU32 (if x > 0 then x else wrap32 (-x))

/-- One differencing pass: `d[j][0] = in[0]` and
`d[j][i] = d[j-1][i] - d[j-1][i-1]` with wrapping `int32_t` subtraction. -/
def dRow (p : List Int) : List Int :=
  match p with
  | [] => []
  | x :: xs => x :: List.zipWith (fun cur prev => wrap32 (cur - prev)) xs p

/-- Row `j` of the difference table `d` of `e_comp`. -/
def dRowN : Nat → List Int → List Int
  | 0, p => p
  | j + 1, p => dRow (dRowN j p)

/-- The or-accumulator `dmaxbit[j]` over the first `maxdiff` entries of a
difference row (absolute values or-ed together). -/
def dmaxbit (row : List Int) (maxdiff : Nat) : Nat :=
  ((row.take maxdiff).map absU).foldl (· ||| ·) 0

/-- The absolute-value sum `dsum[j]` over the first `maxdiff` entries of a
difference row.  The C code accumulates it in a `double`; every partial sum
is an integer below `4094 * 2 ^ 31 < 2 ^ 53`, so the floating accumulation
is exact and a `Nat` sum is faithful. -/
def dsum (row : List Int) (maxdiff : Nat) : Nat :=
  ((row.take maxdiff).map absU).foldl (· + ·) 0

/-- First difference row whose `dmaxbit` has no bit at or above bit 27
(`dmaxbit[j] & 0xf8000000 == 0`), i.e. the first `j` the first `for` loop of
the `dchoose` selection accepts. -/
def dchooseOf (rows : List (List Int)) (maxdiff : Nat) : Option Nat :=
  (List.range rows.length).find? fun j => dmaxbit (rows.getD j []) maxdiff &&& 0xf8000000 = 0

/-- Second `dchoose` loop: starting from the first eligible row `j0`, scan
the higher rows in order and move to any eligible row with a strictly
smaller `dsum` than the current choice. -/
def dchooseRefine (rows : List (List Int)) (maxdiff j0 : Nat) : Nat :=
  (List.range' (j0 + 1) (EC_MAX_NDIFF - j0)).foldl
    (fun cur j =>
      if dmaxbit (rows.getD j []) maxdiff &&& 0xf8000000 = 0 ∧
          dsum (rows.getD j []) maxdiff < dsum (rows.getD cur []) maxdiff then j else cur)
    j0

/-- Greedy packet-emission loop of `e_comp` over the chosen difference row.
`pd` and `pa` are the remaining suffix of `d[dchoose]` and `a[dchoose]`
(`pdmax - pd = pd.length`), `wleft` the remaining 32-bit words before
`outmax`.  Returns the emitted packet words and `didsamp`, the number of
samples consumed.  Branches appear in source order: 4x7-bit, 7x9-bit,
3x10-bit, 5x12-bit, 4x15-bit, 1x28-bit, else break (sample needs more than
28 bits).  The first argument is a structural fuel counter: every iteration
consumes at least one sample of `pd`, so the fuel `pd.length` passed by
`e_comp_loop` is never exhausted. -/
def packEnc : Nat → List Int → List Nat → Nat → List Nat × Nat
  | 0, _, _, _ => ([], 0)
  | fuel + 1, pd, pa, wleft =>
    if wleft = 0 ∨ pd.length = 0 then ([], 0)
    else if 4 ≤ pd.length ∧ pa.getD 0 0 < 0x40 ∧ pa.getD 1 0 < 0x40 ∧
        pa.getD 2 0 < 0x40 ∧ pa.getD 3 0 < 0x40 then
      let w := 0xc0000000 ||| ((toU32 (pd.getD 0 0) &&& 0x7f) <<< 21) |||
        ((toU32 (pd.getD 1 0) &&& 0x7f) <<< 14) |||
        ((toU32 (pd.getD 2 0) &&& 0x7f) <<< 7) ||| (toU32 (pd.getD 3 0) &&& 0x7f)
      let r := packEnc fuel (pd.drop 4) (pa.drop 4) (wleft - 1)
      (w :: r.1, 4 + r.2)
    else if 7 ≤ pd.length ∧ 1 < wleft ∧ pa.getD 0 0 < 0x100 ∧ pa.getD 1 0 < 0x100 ∧
        pa.getD 2 0 < 0x100 ∧ pa.getD 3 0 < 0x100 ∧ pa.getD 4 0 < 0x100 ∧
        pa.getD 5 0 < 0x100 ∧ pa.getD 6 0 < 0x100 then
      let w1 := ((toU32 (pd.getD 0 0) &&& 0x1ff) <<< 22) |||
        ((toU32 (pd.getD 1 0) &&& 0x1ff) <<< 13) |||
        ((toU32 (pd.getD 2 0) &&& 0x1ff) <<< 4) ||| ((toU32 (pd.getD 3 0) &&& 0x1ff) >>> 5)
      let w2 := shl32 (toU32 (pd.getD 3 0)) 27 ||| ((toU32 (pd.getD 4 0) &&& 0x1ff) <<< 18) |||
        ((toU32 (pd.getD 5 0) &&& 0x1ff) <<< 9) ||| (toU32 (pd.getD 6 0) &&& 0x1ff)
      let r := packEnc fuel (pd.drop 7) (pa.drop 7) (wleft - 2)
      (w1 :: w2 :: r.1, 7 + r.2)
    else if 3 ≤ pd.length ∧ pa.getD 0 0 < 0x200 ∧ pa.getD 1 0 < 0x200 ∧
        pa.getD 2 0 < 0x200 then
      let w := 0x80000000 ||| ((toU32 (pd.getD 0 0) &&& 0x3ff) <<< 20) |||
        ((toU32 (pd.getD 1 0) &&& 0x3ff) <<< 10) ||| (toU32 (pd.getD 2 0) &&& 0x3ff)
      let r := packEnc fuel (pd.drop 3) (pa.drop 3) (wleft - 1)
      (w :: r.1, 3 + r.2)
    else if 5 ≤ pd.length ∧ 1 < wleft ∧ pa.getD 0 0 < 0x800 ∧ pa.getD 1 0 < 0x800 ∧
        pa.getD 2 0 < 0x800 ∧ pa.getD 3 0 < 0x800 ∧ pa.getD 4 0 < 0x800 then
      let w1 := 0xd0000000 ||| ((toU32 (pd.getD 0 0) &&& 0xfff) <<< 16) |||
        ((toU32 (pd.getD 1 0) &&& 0xfff) <<< 4) ||| ((toU32 (pd.getD 2 0) &&& 0xfff) >>> 8)
      let w2 := shl32 (toU32 (pd.getD 2 0)) 24 ||| ((toU32 (pd.getD 3 0) &&& 0xfff) <<< 12) |||
        (toU32 (pd.getD 4 0) &&& 0xfff)
      let r := packEnc fuel (pd.drop 5) (pa.drop 5) (wleft - 2)
      (w1 :: w2 :: r.1, 5 + r.2)
    else if 4 ≤ pd.length ∧ 1 < wleft ∧ pa.getD 0 0 < 0x4000 ∧ pa.getD 1 0 < 0x4000 ∧
        pa.getD 2 0 < 0x4000 ∧ pa.getD 3 0 < 0x4000 then
      let w1 := 0xe0000000 ||| ((toU32 (pd.getD 0 0) &&& 0x7fff) <<< 13) |||
        ((toU32 (pd.getD 1 0) &&& 0x7fff) >>> 2)
      let w2 := shl32 (toU32 (pd.getD 1 0)) 30 ||| ((toU32 (pd.getD 2 0) &&& 0x7fff) <<< 15) |||
        (toU32 (pd.getD 3 0) &&& 0x7fff)
      let r := packEnc fuel (pd.drop 4) (pa.drop 4) (wleft - 2)
      (w1 :: w2 :: r.1, 4 + r.2)
    else if pa.getD 0 0 < 0x10000000 then
      let w := 0xf0000000 ||| (toU32 (pd.getD 0 0) &&& 0x0fffffff)
      let r := packEnc fuel (pd.drop 1) (pa.drop 1) (wleft - 1)
      (w :: r.1, 1 + r.2)
    else ([], 0)

/-- The bound `maxsamp` (with `b := bufbytes`) or `maxdiff` (with
`b := bufints`) of an `e_comp` block iteration:
`(insamp > b) ? b : insamp`. -/
def maxsampOf (insamp : Int) (b : Nat) : Nat := (min insamp (b : Int)).toNat

/-- Difference row 0 of an `e_comp` block iteration: the first `maxsamp`
samples of the remaining input window, each assigned to an `int32_t`. -/
def d0Of (win : List Int) (insamp : Int) (bufbytes : Nat) : List Int :=
  (List.range (maxsampOf insamp bufbytes)).map fun i => wrap32 (win.getD i 0)

/-- The difference table `d[0..4]` of an `e_comp` block iteration. -/
def rowsOf (win : List Int) (insamp : Int) (bufbytes : Nat) : List (List Int) :=
  [d0Of win insamp bufbytes, dRowN 1 (d0Of win insamp bufbytes),
    dRowN 2 (d0Of win insamp bufbytes), dRowN 3 (d0Of win insamp bufbytes),
    dRowN 4 (d0Of win insamp bufbytes)]

/-- The refined `dchoose` of an `e_comp` block iteration, given the first
eligible row `j0`. -/
def dchooseAt (win : List Int) (insamp : Int) (bufbytes bufints : Nat) (j0 : Nat) : Nat :=
  dchooseRefine (rowsOf win insamp bufbytes) (maxsampOf insamp bufints) j0

/-- The chosen difference row `d[dchoose]` of an `e_comp` block iteration. -/
def rowAt (win : List Int) (insamp : Int) (bufbytes bufints : Nat) (j0 : Nat) : List Int :=
  (rowsOf win insamp bufbytes).getD (dchooseAt win insamp bufbytes bufints j0) []

/-- The packet emission (words, `didsamp`) of an `e_comp` block iteration. -/
def pkAt (win : List Int) (insamp : Int) (bufbytes bufints : Nat) (j0 : Nat) :
    List Nat × Nat :=
  packEnc (rowAt win insamp bufbytes bufints j0).length (rowAt win insamp bufbytes bufints j0)
    ((rowAt win insamp bufbytes bufints j0).map absU) bufints

/-- The control word of a compressed `e_comp` block: `htonl` of the
sign-extended 24-bit check value of the last consumed sample, its top byte
then overwritten with `dchoose`, leaving
`dchoose <<< 24 ||| (last sample &&& 0xffffff)`. -/
def ctrlAt (win : List Int) (insamp : Int) (bufbytes bufints : Nat) (j0 : Nat) : Nat :=
  (dchooseAt win insamp bufbytes bufints j0 <<< 24) |||
    (toU32 (wrap32 (win.getD ((pkAt win insamp bufbytes bufints j0).2 - 1) 0)) &&& 0xffffff)

/-- The compressed-block step of the `e_comp` loop, for first eligible row
`j0`: whether the block was the last one (all input consumed, the loop
returns `EC_SUCCESS`), the consumed `didsamp`, the bytes added to
`*outbytes`, and the emitted block bytes. -/
def e_comp_go (win : List Int) (insamp : Int) (bufbytes bufints : Nat) (block_flag : Int)
    (j0 : Nat) : Bool × Nat × Nat × List Nat :=
  if insamp - ((pkAt win insamp bufbytes bufints j0).2 : Int) = 0 then
    if block_flag = EC_SHORT_END then
      (true, (pkAt win insamp bufbytes bufints j0).2,
        4 * (2 + (pkAt win insamp bufbytes bufints j0).1.length),
        be16 (4 * (2 + (pkAt win insamp bufbytes bufints j0).1.length)) ++
          be16 (pkAt win insamp bufbytes bufints j0).2 ++
          be32 (ctrlAt win insamp bufbytes bufints j0) ++
          wordsToBytes (pkAt win insamp bufbytes bufints j0).1)
    else
      (true, (pkAt win insamp bufbytes bufints j0).2, bufbytes,
        be16 bufbytes ++ be16 (pkAt win insamp bufbytes bufints j0).2 ++
          be32 (ctrlAt win insamp bufbytes bufints j0) ++
          wordsToBytes (pkAt win insamp bufbytes bufints j0).1 ++
          List.replicate (bufbytes - (8 + 4 * (pkAt win insamp bufbytes bufints j0).1.length)) 0)
  else
    (false, (pkAt win insamp bufbytes bufints j0).2, bufbytes,
      be16 bufbytes ++ be16 (pkAt win insamp bufbytes bufints j0).2 ++
        be32 (ctrlAt win insamp bufbytes bufints j0) ++
        wordsToBytes (pkAt win insamp bufbytes bufints j0).1 ++
        List.replicate (bufbytes - (8 + 4 * (pkAt win insamp bufbytes bufints j0).1.length)) 0)

/-- One full iteration of the block loop of `e_comp` as a step descriptor:
whether the loop returns `EC_SUCCESS` after this block (all input consumed),
the consumed `didsamp`, the bytes added to `*outbytes`, and the emitted
block bytes.  The `dchoose < 0` case (no eligible difference row) is the
`none` branch of `Option.elim` and emits an uncompressed block; an eligible
first row `j0` takes the compressed step `e_comp_go`. -/
def e_comp_step (win : List Int) (insamp : Int) (bufbytes bufints : Nat) (block_flag : Int) :
    Bool × Nat × Nat × List Nat :=
  (dchooseOf (rowsOf win insamp bufbytes) (maxsampOf insamp bufints)).elim
    (if insamp > (bufints : Int) then
      (false, bufints, bufbytes,
        be16 bufbytes ++ be16 bufints ++ be32 EC_UNCOMP ++
          wordsToBytes ((List.range bufints).map fun k => toU32 (wrap32 (win.getD k 0))))
    else
      (true, insamp.toNat,
        (if block_flag = EC_SHORT_END then 4 * (insamp.toNat + 2) else bufbytes),
        be16 (if block_flag = EC_SHORT_END then 4 * (insamp.toNat + 2) else bufbytes) ++
          be16 insamp.toNat ++ be32 EC_UNCOMP ++
          wordsToBytes ((List.range insamp.toNat).map fun k => toU32 (wrap32 (win.getD k 0))) ++
          (if block_flag = EC_SHORT_END then []
            else List.replicate (bufbytes - (8 + 4 * insamp.toNat)) 0)))
    (fun j0 => e_comp_go win insamp bufbytes bufints block_flag j0)

/-- The block loop of `e_comp`, modelled with explicit fuel.  Running out
of fuel returns `EC_FAILED`, the code of the unreachable fall-through after
the loop; every real iteration consumes at least one input sample, so fuel
`insamp` from the caller is never exhausted.  `win` is the not-yet-consumed
input suffix and `insamp` its (tracked) sample count; `acc` the stream
bytes emitted so far and `outbytes` the running `*outbytes`.  Each
iteration takes the step `e_comp_step`; a finishing step returns
`EC_SUCCESS`, otherwise the loop advances past the consumed samples. -/
def e_comp_loop (fuel : Nat) (win : List Int) (insamp : Int) (bufbytes bufints : Nat)
    (block_flag : Int) (outbytes : Int) (acc : List Nat) : Int × Int × List Nat :=
  match fuel with
  | 0 => (EC_FAILED, outbytes, acc)
  | fuel + 1 =>
    if insamp ≤ 0 then (EC_FAILED, outbytes, acc)
    else
      if (e_comp_step win insamp bufbytes bufints block_flag).1 then
        (EC_SUCCESS,
          outbytes + ((e_comp_step win insamp bufbytes bufints block_flag).2.2.1 : Int),
          acc ++ (e_comp_step win insamp bufbytes bufints block_flag).2.2.2)
      else
        e_comp_loop fuel
          (win.drop (e_comp_step win insamp bufbytes bufints block_flag).2.1)
          (insamp - (e_comp_step win insamp bufbytes bufints block_flag).2.1)
          bufbytes bufints block_flag
          (outbytes + ((e_comp_step win insamp bufbytes bufints block_flag).2.2.1 : Int))
          (acc ++ (e_comp_step win insamp bufbytes bufints block_flag).2.2.2)

/-- The working-buffer size selected by `e_comp` from the two datatype
characters; `none` when the tag is rejected with `EC_TYPE_ERROR`. -/
def bufbytesFor (dt : Nat × Nat) : Option Nat :=
  if dt.1 = 101 then
    if (dt.2 : Int) - 48 < 0 ∨ (dt.2 : Int) - 48 > 8 then none
    else if (dt.2 : Int) - 48 = 0 then some 1024 else some (((dt.2 : Int) - 48).toNat * 2048)
  else if dt.1 = 69 then
    if (dt.2 : Int) - 48 < 0 ∨ (dt.2 : Int) - 48 > 9 then none
    else if (dt.2 : Int) - 48 = 0 then some 1200 else some ((((dt.2 : Int) - 48).toNat + 1) * 400)
  else none

/-- Embedding of `e_comp` (e_compression.c).  `inNull`, `outNull`, `obNull`
model NULL `in` / `out` / `outbytes` pointers; `dt` is the two datatype
characters; the result is the return code, the final `*outbytes` (0 when the
code returns before setting it) and the emitted stream bytes.  The `n = 0`
no-op return precedes the datatype parse and the argument check, exactly as
in the source. -/
def e_comp (inNull outNull obNull : Bool) (input : List Int) (insamp : Int)
    (dt : Nat × Nat) (block_flag : Int) : Int × Int × List Nat :=
  if insamp = 0 then (EC_SUCCESS, 0, [])
  else
    (bufbytesFor dt).elim (EC_TYPE_ERROR, 0, [])
      (fun bufbytes =>
        if inNull ∨ outNull ∨ insamp ≤ 0 ∨ obNull then (EC_ARG_ERROR, 0, [])
        else e_comp_loop insamp.toNat input insamp bufbytes (bufbytes / 4 - 2) block_flag 0 [])

/-! Embedding of g2s4.c.  The buffer is a list of 16-bit halfwords (the
`unsigned short *s` view); the aliased `long *l` view reads and writes the
32-bit value at halfwords `2*i`, `2*i+1`, composed big-endian, as on the
big-endian hosts the library requires. -/

/-- Gain bit-shift table `gain` of g2s4.c. -/
def gain : List Nat := [0, 2, 4, 7]

/-- Halfword read `s[i]`. -/
def readHW (hw : List Nat) (i : Nat) : Nat := hw.getD i 0

/-- 32-bit read `l[i]` through the aliased views: the high halfword at
`2 * i`, the low at `2 * i + 1` (big-endian host). -/
def read32hw (hw : List Nat) (i : Nat) : Int :=
  ofU32 (hw.getD (2 * i) 0 * 2 ^ 16 + hw.getD (2 * i + 1) 0)

/-- 32-bit write `l[i] = v` through the aliased views. -/
def write32hw (hw : List Nat) (i : Nat) (v : Int) : List Nat :=
  (hw.set (2 * i) (toU32 v / 2 ^ 16)).set (2 * i + 1) (toU32 v % 2 ^ 16)

/-- Per-sample g2 decode of g2s4.c:
`((*s & 0x3fff) - 0x1fff) << gain[(*s & 0xc000) >> 14]`, assigned to a
32-bit `long`. -/
def g2decode (raw : Nat) : Int :=
  wrap32 ((((raw &&& 0x3fff : Nat) : Int) - 0x1fff) * 2 ^ gain.getD (raw >>> 14) 0)

/-- One `l[i] = decode(s[i])` statement of `g2tos4`. -/
def g2step (hw : List Nat) (i : Nat) : List Nat := write32hw hw i (g2decode (readHW hw i))

/-- Embedding of `g2tos4` (g2s4.c): the unrolled loop handles ten samples
per iteration from the top of the buffer while more than nine remain,
statements `l[9]` down to `l[0]`, then the tail loop handles the rest one
sample at a time, still descending; both loops visit indices in strictly
descending order. -/
def g2tos4 (hw : List Nat) : Nat → List Nat
  | n + 10 =>
    let h9 := g2step hw (n + 9)
    let h8 := g2step h9 (n + 8)
    let h7 := g2step h8 (n + 7)
    let h6 := g2step h7 (n + 6)
    let h5 := g2step h6 (n + 5)
    let h4 := g2step h5 (n + 4)
    let h3 := g2step h4 (n + 3)
    let h2 := g2step h3 (n + 2)
    let h1 := g2step h2 (n + 1)
    let h0 := g2step h1 n
    g2tos4 h0 n
  | n + 1 => g2tos4 (g2step hw n) n
  | 0 => hw

/-- Strictly descending single-step form of `g2tos4`; both loops of the
source visit the same descending index order, so the two agree (proved
below). -/
def g2desc : List Nat → Nat → List Nat
  | hw, 0 => hw
  | hw, k + 1 => g2desc (g2step hw k) k

/-- The biased-and-masked test value of `s4tog2`:
`temp = (*l + bias) & 0x7fffffff` with wrapping 32-bit addition. -/
def biasAdd (x : Int) (bias : Nat) : Nat := toU32 (x + bias) &&& 0x7fffffff

/-- Per-sample s4→g2 encoding: the value every branch of the tail loop of
`s4tog2` stores into the sample's own output slot (saturation included). -/
def s4tog2enc (x : Int) : Nat :=
  if biasAdd x 0x1fff < 0x4000 then biasAdd x 0x1fff
  else if biasAdd x 0x7ffd < 0x10000 then (biasAdd x 0x7ffd) >>> 2 ||| 0x4000
  else if biasAdd x 0x1fff7 < 0x40000 then (biasAdd x 0x1fff7) >>> 4 ||| 0x8000
  else if biasAdd x 0xfffbf < 0x200000 then (biasAdd x 0xfffbf) >>> 7 ||| 0xc000
  else 0xffff

/-- Whether some gain tier accepts the sample, i.e. the encoder does not
take the saturating `else` branch. -/
def g2fits (x : Int) : Bool :=
  biasAdd x 0x1fff < 0x4000 ∨ biasAdd x 0x7ffd < 0x10000 ∨
    biasAdd x 0x1fff7 < 0x40000 ∨ biasAdd x 0xfffbf < 0x200000

/-- One sample of the tail loop of `s4tog2`: every branch, the saturating
one included, stores into slot `i`. -/
def s4tog2stepOwn (hw : List Nat) (i : Nat) : List Nat :=
  hw.set i (s4tog2enc (read32hw hw i))

/-- Slot 0 of the unrolled group of `s4tog2`: the four fitting branches
store into `s[0]` (slot `i`), but the saturating branch stores `0xffff`
into `s[1]` (slot `i + 1`) — g2s4.c line 96. -/
def s4tog2step0 (hw : List Nat) (i : Nat) : List Nat :=
  let x := read32hw hw i
  if g2fits x then hw.set i (s4tog2enc x) else hw.set (i + 1) 0xffff

/-- Embedding of `s4tog2` (g2s4.c): groups of five samples while more than
four remain (slot 0 with the misdirected saturation store, slots 1-4
normal), then the per-sample tail loop.  `base` tracks the advancing `s` /
`l` pointers. -/
def s4tog2go (hw : List Nat) (base : Nat) : Nat → List Nat
  | n + 5 =>
    let h0 := s4tog2step0 hw base
    let h1 := s4tog2stepOwn h0 (base + 1)
    let h2 := s4tog2stepOwn h1 (base + 2)
    let h3 := s4tog2stepOwn h2 (base + 3)
    let h4 := s4tog2stepOwn h3 (base + 4)
    s4tog2go h4 (base + 5) n
  | n + 1 => s4tog2go (s4tog2stepOwn hw base) (base + 1) n
  | 0 => hw

/-- Embedding of `s4tog2` on a whole buffer of `n` samples. -/
def s4tog2 (hw : List Nat) (n : Nat) : List Nat := s4tog2go hw 0 n

/-! Embedding of convdata.c (the transcoder planner) and of the four
f4/t4 conversion primitives of f4f8t4t8.c that its special cases use. -/

/-- Names of the primitive conversion routines of the transcoder table. -/
inductive ConvPrim where
  | a2tot8 | f4tot4 | f4tot4x | f4tot8 | f8tot8 | g2tos4 | i2tos2 | i2tos4 | i4tos4
  | s2toi2 | s2tos4 | s2tot8 | s3tos4 | s4tog2 | s4toi2 | s4toi4 | s4tos2 | s4tos3
  | s4tot4 | s4tot8 | t4tof4 | t4tof4x | t4tos4 | t4tot8 | t8toa2 | t8tof4 | t8tof8
  | t8tos2 | t8tos4 | t8tot4
deriving DecidableEq, Repr

/-- One row of the `datatype` table of convdata.c; absent function slots
(the zeroes in the C initialiser, i.e. null pointers) are `none`. -/
structure TypeInfo where
  name : Nat × Nat
  len : Nat
  have_s4 : Bool
  have_t8 : Bool
  from_s4_func : Option ConvPrim
  to_s4_func : Option ConvPrim
  from_t8_func : Option ConvPrim
  to_t8_func : Option ConvPrim
deriving DecidableEq, Repr

/-- Datatype tags as pairs of ASCII codes. -/
def A2 : Nat × Nat := (97, 50)
def F4 : Nat × Nat := (102, 52)
def F8 : Nat × Nat := (102, 56)
def G2 : Nat × Nat := (103, 50)
def I2 : Nat × Nat := (105, 50)
def I4 : Nat × Nat := (105, 52)
def S2 : Nat × Nat := (115, 50)
def S3 : Nat × Nat := (115, 51)
def S4 : Nat × Nat := (115, 52)
def T4 : Nat × Nat := (116, 52)
def T8 : Nat × Nat := (116, 56)

/-- The `datatype` table of convdata.c. -/
def datatype : List TypeInfo := [
  ⟨A2, 2, false, true, none, none, some .t8toa2, some .a2tot8⟩,
  ⟨F4, 4, false, true, none, none, some .t8tof4, some .f4tot8⟩,
  ⟨F8, 8, false, true, none, none, some .t8tof8, some .f8tot8⟩,
  ⟨G2, 2, true, false, some .s4tog2, some .g2tos4, none, none⟩,
  ⟨I2, 2, true, false, some .s4toi2, some .i2tos4, none, none⟩,
  ⟨I4, 4, true, false, some .s4toi4, some .i4tos4, none, none⟩,
  ⟨S2, 2, true, true, some .s4tos2, some .s2tos4, some .t8tos2, some .s2tot8⟩,
  ⟨S3, 3, true, false, some .s4tos3, some .s3tos4, none, none⟩,
  ⟨S4, 4, false, true, none, none, some .t8tos4, some .s4tot8⟩,
  ⟨T4, 4, true, true, some .s4tot4, some .t4tos4, some .t8tot4, some .t4tot8⟩,
  ⟨T8, 8, true, false, some .s4tot8, some .t8tos4, none, none⟩]

/-- Linear search of the `datatype` table by tag (first match, as in the C
lookup loops). -/
def lookupType (tag : Nat × Nat) : Option TypeInfo := datatype.find? fun r => r.name = tag

def CONV_SUCCESS : Int := 0
def CONV_UNKNOWN : Int := -1

/-- Result of `convfunc`: return code, `*inlen`, `*outlen` and the planned
chain of primitives (`func[0..nfunc)`). -/
structure PlanRes where
  code : Int
  inlen : Nat
  outlen : Nat
  funcs : List (Option ConvPrim)
deriving DecidableEq, Repr

/-- Embedding of `convfunc` (convdata.c): the planner.  Rows have distinct
names, so the pointer comparison `in_info == out_info` is name equality. -/
def convfunc (intype outtype : Nat × Nat) : PlanRes :=
  match lookupType intype with
  | none => ⟨CONV_UNKNOWN, 0, 0, []⟩
  | some inInfo =>
    match lookupType outtype with
    | none => ⟨CONV_UNKNOWN, 0, 0, []⟩
    | some outInfo =>
      if inInfo.name = outInfo.name then ⟨CONV_SUCCESS, outInfo.len, outInfo.len, []⟩
      else if inInfo.name = I2 ∧ outInfo.name = S2 then
        ⟨CONV_SUCCESS, inInfo.len, outInfo.len, [some .i2tos2]⟩
      else if inInfo.name = S2 ∧ outInfo.name = I2 then
        ⟨CONV_SUCCESS, inInfo.len, outInfo.len, [some .s2toi2]⟩
      else if inInfo.name = F4 ∧ outInfo.name = T4 then
        ⟨CONV_SUCCESS, inInfo.len, outInfo.len, [some .f4tot4]⟩
      else if inInfo.name = T4 ∧ outInfo.name = F4 then
        ⟨CONV_SUCCESS, inInfo.len, outInfo.len, [some .t4tof4]⟩
      else if inInfo.name = S4 then
        ⟨CONV_SUCCESS, inInfo.len, outInfo.len, [outInfo.from_s4_func]⟩
      else if outInfo.name = S4 then
        ⟨CONV_SUCCESS, inInfo.len, outInfo.len, [inInfo.to_s4_func]⟩
      else if outInfo.have_s4 ∧ inInfo.have_s4 then
        ⟨CONV_SUCCESS, inInfo.len, outInfo.len, [inInfo.to_s4_func, outInfo.from_s4_func]⟩
      else if inInfo.name = T8 then
        ⟨CONV_SUCCESS, inInfo.len, outInfo.len,
          if outInfo.have_t8 then [outInfo.from_t8_func]
          else [some .t8tos4, outInfo.from_s4_func]⟩
      else if outInfo.name = T8 then
        ⟨CONV_SUCCESS, inInfo.len, outInfo.len,
          if inInfo.have_t8 then [inInfo.to_t8_func] else [inInfo.to_s4_func, some .s4tot8]⟩
      else
        ⟨CONV_SUCCESS, inInfo.len, outInfo.len,
          (if inInfo.have_t8 then [inInfo.to_t8_func] else [inInfo.to_s4_func, some .s4tot8]) ++
          (if outInfo.have_t8 then [outInfo.from_t8_func]
           else [some .t8tos4, outInfo.from_s4_func])⟩

/-- Embedding of `convdata` (convdata.c): the return code and the chain of
primitive calls the function performs on the buffer, in order.  Its branch
structure mirrors `convfunc`, except that the f4/t4 special cases call the
correct-but-slower `f4tot4x` / `t4tof4x` variants. -/
def convdata (intype outtype : Nat × Nat) : Int × List (Option ConvPrim) :=
  match lookupType intype with
  | none => (CONV_UNKNOWN, [])
  | some inInfo =>
    match lookupType outtype with
    | none => (CONV_UNKNOWN, [])
    | some outInfo =>
      if inInfo.name = outInfo.name then (CONV_SUCCESS, [])
      else if inInfo.name = I2 ∧ outInfo.name = S2 then (CONV_SUCCESS, [some .i2tos2])
      else if inInfo.name = S2 ∧ outInfo.name = I2 then (CONV_SUCCESS, [some .s2toi2])
      else if inInfo.name = F4 ∧ outInfo.name = T4 then (CONV_SUCCESS, [some .f4tot4x])
      else if inInfo.name = T4 ∧ outInfo.name = F4 then (CONV_SUCCESS, [some .t4tof4x])
      else if inInfo.name = S4 then (CONV_SUCCESS, [outInfo.from_s4_func])
      else if outInfo.name = S4 then (CONV_SUCCESS, [inInfo.to_s4_func])
      else if outInfo.have_s4 ∧ inInfo.have_s4 then
        (CONV_SUCCESS, [inInfo.to_s4_func, outInfo.from_s4_func])
      else if inInfo.name = T8 then
        (CONV_SUCCESS, if outInfo.have_t8 then [outInfo.from_t8_func]
          else [some .t8tos4, outInfo.from_s4_func])
      else if outInfo.name = T8 then
        (CONV_SUCCESS, if inInfo.have_t8 then [inInfo.to_t8_func]
          else [inInfo.to_s4_func, some .s4tot8])
      else
        (CONV_SUCCESS,
          (if inInfo.have_t8 then [inInfo.to_t8_func] else [inInfo.to_s4_func, some .s4tot8]) ++
          (if outInfo.have_t8 then [outInfo.from_t8_func]
           else [some .t8tos4, outInfo.from_s4_func]))

/-- Embedding of `f4tot4` (f4f8t4t8.c, the fast variant): per 4-byte sample,
swap byte pairs and decrement the second byte when its low seven bits are
nonzero (`unsigned char` decrement; the guarded byte is at least 1, and the
wrap case cannot occur, but the modulus keeps the model total). -/
def f4tot4 : List Nat → Nat → List Nat
  | l, 0 => l
  | b0 :: b1 :: b2 :: b3 :: rest, n + 1 =>
    (if b1 &&& 0x7f ≠ 0 then (b1 + 255) % 256 else b1) :: b0 :: b3 :: b2 :: f4tot4 rest n
  | l, _ + 1 => l

/-- Embedding of `t4tof4` (the fast variant): increment the first byte when
its low seven bits are nonzero (`unsigned char` increment wraps), then swap
byte pairs. -/
def t4tof4 : List Nat → Nat → List Nat
  | l, 0 => l
  | b0 :: b1 :: b2 :: b3 :: rest, n + 1 =>
    b1 :: (if b0 &&& 0x7f ≠ 0 then (b0 + 1) % 256 else b0) :: b3 :: b2 :: t4tof4 rest n
  | l, _ + 1 => l

/-- Embedding of `f4tot4x` (the correct variant): flush the region
`(u[1] & 0x7f) < 2 && !(u[0] & 0x80)` to exact zero, else decrement byte 1
(`unsigned char` wrap) and swap byte pairs. -/
def f4tot4x : List Nat → Nat → List Nat
  | l, 0 => l
  | b0 :: b1 :: b2 :: b3 :: rest, n + 1 =>
    if b1 &&& 0x7f < 2 ∧ b0 &&& 0x80 = 0 then 0 :: 0 :: 0 :: 0 :: f4tot4x rest n
    else (b1 + 255) % 256 :: b0 :: b3 :: b2 :: f4tot4x rest n
  | l, _ + 1 => l

/-- Embedding of `t4tof4x` (the correct variant): `temp` recombines the full
IEEE exponent; zero exponent flushes to zero, exponent above 0xfd saturates
to the byte pattern `ff 7f ff ff` (the f4 byte-swapped view of
`7f ff ff ff`), else increment byte 0 and swap byte pairs. -/
def t4tof4x : List Nat → Nat → List Nat
  | l, 0 => l
  | b0 :: b1 :: b2 :: b3 :: rest, n + 1 =>
    let temp := ((b0 <<< 1) % 256) ||| ((b1 &&& 0x80) >>> 7)
    if temp = 0 then 0 :: 0 :: 0 :: 0 :: t4tof4x rest n
    else if temp > 0xfd then 0xff :: 0x7f :: 0xff :: 0xff :: t4tof4x rest n
    else b1 :: (b0 + 1) % 256 :: b3 :: b2 :: t4tof4x rest n
  | l, _ + 1 => l

/-- Byte-level semantics of the primitives the f4/t4 claims exercise; a
chain entry that is a null pointer or an unmodelled primitive gives `none`. -/
def runPrim (p : ConvPrim) (buf : List Nat) (n : Nat) : Option (List Nat) :=
  match p with
  | .f4tot4 => some (f4tot4 buf n)
  | .t4tof4 => some (t4tof4 buf n)
  | .f4tot4x => some (f4tot4x buf n)
  | .t4tof4x => some (t4tof4x buf n)
  | _ => none

/-- Execution of a planned chain of primitives on a buffer. -/
def runChain (ps : List (Option ConvPrim)) (buf : List Nat) (n : Nat) : Option (List Nat) :=
  match ps with
  | [] => some buf
  | none :: _ => none
  | some p :: rest =>
    match runPrim p buf n with
    | none => none
    | some buf2 => runChain rest buf2 n

/-- VAX F exponent of an f4 sample from its first two stored bytes: stored
byte 1 holds the sign and exponent bits e7..e1, stored byte 0 the exponent
bit e0 and the top mantissa bits (the byte layout described at the top of
f4f8t4t8.c, as moved by `f4tot4` / `t4tof4`). -/
def vaxExpF4 (b0 b1 : Nat) : Nat := 2 * (b1 &&& 0x7f) + (b0 >>> 7)

/-- IEEE single exponent of a t4 sample from its first two stored bytes,
written exactly as the `temp` recombination of `t4tof4x`:
`(u[0] << 1)` in an `unsigned char` or-ed with `(u[1] & 0x80) >> 7`, i.e.
the sign bit dropped and the exponent bits e7..e0 assembled. -/
def ieeeExpT4 (b0 b1 : Nat) : Nat := ((b0 <<< 1) % 256) ||| ((b1 &&& 0x80) >>> 7)

/-! Helper lemmas. -/

theorem readCell_inBounds (cells : List Nat) (mem : Int → Nat) (i : Int) (h0 : 0 ≤ i)
    (h1 : i < (cells.length : Int)) : readCell cells mem i = cells.getD i.toNat 0 := by
  simp [readCell, h0, h1]

/-! Claim C4: argument validation of the stream decoder.  The claim as
stated fails: `e_decomp` returns `EC_SUCCESS` for `outsamp == 0` before the
argument check runs. -/

/-- Claim C4 (counterexample): a call with a NULL input buffer, negative
`insamp`, `inbyte` and `out0`, and `outsamp = 0` — conditions under which
the claim demands `EC_ARG_ERROR` — returns `EC_SUCCESS`, because the
`outsamp == 0` early return precedes the argument check. -/
theorem e_decomp_outsamp_zero_counterexample :
    e_decomp none true (-1) (-1) (-1) 0 memZero = (EC_SUCCESS, []) ∧
      EC_SUCCESS ≠ EC_ARG_ERROR := by decide

/-- Claim C4 (amended): for every call of `e_decomp` with `outsamp ≠ 0` in
which the input or output buffer is null, or `insamp ≤ 0`, or `inbyte ≤ 0`,
or `outsamp ≤ 0`, or `out0 < 0`, or `out0 ≥ insamp`, or
`out0 + outsamp > insamp`, the function returns `EC_ARG_ERROR` and writes
nothing to the output array; when `outsamp = 0` it instead returns
`EC_SUCCESS` immediately, also writing nothing. -/
theorem e_decomp_arg_error (inOpt : Option (List Nat)) (outNull : Bool)
    (insamp inbyte out0 outsamp : Int) (umem : Int → Nat) (h0 : outsamp ≠ 0)
    (h : inOpt.isNone = true ∨ outNull = true ∨ insamp ≤ 0 ∨ inbyte ≤ 0 ∨ out0 < 0 ∨
      out0 ≥ insamp ∨ outsamp ≤ 0 ∨ out0 + outsamp > insamp) :
    e_decomp inOpt outNull insamp inbyte out0 outsamp umem = (EC_ARG_ERROR, []) := by
  rw [e_decomp, if_neg h0, if_pos]
  simpa using h

/-- Claim C4 (witness). -/
theorem e_decomp_arg_error_witness :
    e_decomp (some []) false (-1) 4 0 1 memZero = (EC_ARG_ERROR, []) :=
  e_decomp_arg_error (some []) false (-1) 4 0 1 memZero (by decide) (by simp)

/-! Claim C3: header validation in the block decoder.  The three range
checks hold as claimed, in source order, but the multiple-of-four check is
not performed by `block_e_decomp`: it lives in `e_decomp`. -/

/-- Claim C3 (counterexample): a block whose header has `nbyte = 10`, not a
multiple of four, which passes every check `block_e_decomp` performs and
decodes to `EC_SUCCESS` — so `block_e_decomp` does not reject non-multiples
of four. -/
theorem block_e_decomp_mod4_counterexample :
    readU16 [0, 10, 0, 1, 0, 0, 0, 1, 0xf0, 0, 0, 1] 0 % 4 ≠ 0 ∧
      (block_e_decomp [0, 10, 0, 1, 0, 0, 0, 1, 0xf0, 0, 0, 1] memZero).code = EC_SUCCESS := by
  decide

/-- Claim C3 (amended): `block_e_decomp` range-checks the header before
reading any payload (the result below depends only on the two header
fields, for every payload and every memory): `nsamp > 16384 / 4` gives
`EC_SAMP_ERROR`; then `nbyte < 8` or `nbyte > 16384` gives
`EC_LENGTH_ERROR`; then `nbyte < nsamp + 8` or `nbyte > (nsamp + 2) * 4`
gives `EC_SAMP_ERROR` (`nsamp < 0` cannot occur: the field is an unsigned
16-bit read).  The multiple-of-four check is performed by the stream
decoder `e_decomp`, which rejects such a header with `EC_LENGTH_ERROR`;
`block_e_decomp` itself does not perform it. -/
theorem block_e_decomp_header_checks (b : List Nat) (mem : Int → Nat) :
    (readU16 b 2 > 4096 → (block_e_decomp b mem).code = EC_SAMP_ERROR) ∧
    (readU16 b 2 ≤ 4096 → readU16 b 0 < 8 ∨ readU16 b 0 > 16384 →
      (block_e_decomp b mem).code = EC_LENGTH_ERROR) ∧
    (readU16 b 2 ≤ 4096 → 8 ≤ readU16 b 0 → readU16 b 0 ≤ 16384 →
      readU16 b 0 < readU16 b 2 + 8 ∨ readU16 b 0 > (readU16 b 2 + 2) * 4 →
      (block_e_decomp b mem).code = EC_SAMP_ERROR) ∧
    (∀ inb : List Nat, ∀ outNull insamp inbyte out0 outsamp umem,
      outsamp ≠ 0 →
      ¬(outNull = true ∨ insamp ≤ 0 ∨ inbyte ≤ 0 ∨ out0 < 0 ∨ out0 ≥ insamp ∨
        outsamp ≤ 0 ∨ out0 + outsamp > insamp) →
      readU16 inb 2 ≤ 4096 → 8 ≤ readU16 inb 0 → readU16 inb 0 ≤ 16384 →
      readU16 inb 2 + 8 ≤ readU16 inb 0 → readU16 inb 0 ≤ (readU16 inb 2 + 2) * 4 →
      readU16 inb 0 % 4 ≠ 0 →
      e_decomp (some inb) outNull insamp inbyte out0 outsamp umem = (EC_LENGTH_ERROR, [])) := by
  refine ⟨fun h1 => ?_, fun h1 h2 => ?_, fun h1 h2 h3 h4 => ?_, ?_⟩
  · rw [block_e_decomp, if_pos (by simpa [EC_MAX_BUFFER] using h1)]
  · rw [block_e_decomp, if_neg (by simpa [EC_MAX_BUFFER] using Nat.not_lt.mpr h1),
      if_pos (by simpa [EC_MAX_BUFFER] using h2)]
  · rw [block_e_decomp, if_neg (by simpa [EC_MAX_BUFFER] using Nat.not_lt.mpr h1),
      if_neg (by simp [EC_MAX_BUFFER]; omega), if_pos (by omega)]
  · intro inb outNull insamp inbyte out0 outsamp umem h0 harg h1 h2 h3 h4 h5 h6
    rw [e_decomp, if_neg h0, if_neg (by simpa using harg)]
    have hhdr : hdrAt inb (inbyte.toNat / 4) 0 = Except.error EC_LENGTH_ERROR := by
      rw [hdrAt]
      simp only [Nat.mul_zero, Nat.zero_add]
      rw [if_neg (by simp only [EC_MAX_BUFFER]; omega),
        if_neg (by simp only [EC_MAX_BUFFER]; omega), if_neg (by omega), if_pos h6]
    simp [hhdr]

/-- Claim C3 (witness). -/
theorem block_e_decomp_header_checks_witness :
    (block_e_decomp [0, 8, 0x20, 0] memZero).code = EC_SAMP_ERROR ∧
    (block_e_decomp [0, 4, 0, 0] memZero).code = EC_LENGTH_ERROR ∧
    (block_e_decomp [0, 8, 0, 1] memZero).code = EC_SAMP_ERROR ∧
    e_decomp (some [0, 10, 0, 1]) false 1 12 0 1 memZero = (EC_LENGTH_ERROR, []) :=
  ⟨(block_e_decomp_header_checks [0, 8, 0x20, 0] memZero).1 (by decide),
    (block_e_decomp_header_checks [0, 4, 0, 0] memZero).2.1 (by decide) (by decide),
    (block_e_decomp_header_checks [0, 8, 0, 1] memZero).2.2.1 (by decide) (by decide)
      (by decide) (by decide),
    (block_e_decomp_header_checks [] memZero).2.2.2 [0, 10, 0, 1] false 1 12 0 1 memZero
      (by decide) (by decide) (by decide) (by decide) (by decide) (by decide) (by decide)
      (by decide)⟩

/-! Claim C5: uncompressed block decode. -/

/-- Claim C5: for every block whose header passes the range checks and
whose control word has the uncompressed flag `0x10000000` set,
`block_e_decomp` returns `EC_LENGTH_ERROR` when `nbyte ≠ (nsamp + 2) * 4`,
and otherwise returns `EC_SUCCESS` with `out[k]` equal to the k-th
big-endian 32-bit payload word for every `k < nsamp`, the cells read back
as the corresponding signed integers, and with no un-differencing and no
check-value test (the result is the raw payload, for every memory `mem`). -/
theorem block_e_decomp_uncompressed (b : List Nat) (mem : Int → Nat)
    (h1 : readU16 b 2 ≤ 4096) (h2 : 8 ≤ readU16 b 0) (h3 : readU16 b 0 ≤ 16384)
    (h4 : readU16 b 2 + 8 ≤ readU16 b 0) (h5 : readU16 b 0 ≤ (readU16 b 2 + 2) * 4)
    (hflag : readU32 b 4 &&& EC_UNCOMP ≠ 0) :
    (readU16 b 0 ≠ (readU16 b 2 + 2) * 4 →
      block_e_decomp b mem = ⟨EC_LENGTH_ERROR, [], readU16 b 2, readU16 b 0⟩) ∧
    (readU16 b 0 = (readU16 b 2 + 2) * 4 →
      block_e_decomp b mem =
        ⟨EC_SUCCESS, (List.range (readU16 b 2)).map fun k => readU32 b (8 + 4 * k),
          readU16 b 2, readU16 b 0⟩ ∧
      (block_e_decomp b mem).out.map ofU32 =
        (List.range (readU16 b 2)).map fun k => ofU32 (readU32 b (8 + 4 * k))) := by
  have hstep : block_e_decomp b mem =
      if readU16 b 0 ≠ (readU16 b 2 + 2) * 4 then
        ⟨EC_LENGTH_ERROR, [], readU16 b 2, readU16 b 0⟩
      else ⟨EC_SUCCESS, (List.range (readU16 b 2)).map fun k => readU32 b (8 + 4 * k),
        readU16 b 2, readU16 b 0⟩ := by
    rw [block_e_decomp]
    rw [if_neg (by simp only [EC_MAX_BUFFER]; omega),
      if_neg (by simp only [EC_MAX_BUFFER]; omega), if_neg (by omega), if_pos hflag]
  refine ⟨fun hne => ?_, fun heq => ?_⟩
  · rw [hstep, if_pos hne]
  · rw [hstep, if_neg (by simp [heq])]
    simp

/-- Claim C5 (witness): an uncompressed block carrying the single sample
`0xfffffffb`, read back as `-5`. -/
theorem block_e_decomp_uncompressed_witness :
    block_e_decomp [0, 12, 0, 1, 0x10, 0, 0, 0, 0xff, 0xff, 0xff, 0xfb] memZero =
      ⟨EC_SUCCESS, [0xfffffffb], 1, 12⟩ ∧
    (block_e_decomp [0, 12, 0, 1, 0x10, 0, 0, 0, 0xff, 0xff, 0xff, 0xfb] memZero).out.map
      ofU32 = [-5] := by
  have h := (block_e_decomp_uncompressed
    [0, 12, 0, 1, 0x10, 0, 0, 0, 0xff, 0xff, 0xff, 0xfb] memZero (by decide) (by decide)
    (by decide) (by decide) (by decide) (by decide)).2 (by decide)
  exact ⟨by rw [h.1]; decide, by rw [h.2]; decide⟩

/-! Claim C10: zero-sample compressed block reads outside the written
output. -/

/-- Claim C10: on a compressed block with `nsamp = 0`, `nbyte = 8` that
passes every check, `block_e_decomp` writes nothing and evaluates the check
comparison on memory it never produced: with `ndiff = 0` the result flips
between `EC_SUCCESS` and `EC_CHECK_ERROR` as the cell at index `-1` (before
the output array) changes, and with `ndiff = 1` as the never-written cell at
index `0` changes. -/
theorem block_e_decomp_zero_nsamp_oob :
    (block_e_decomp [0, 8, 0, 0, 0, 0, 0, 0] memZero).out = [] ∧
    (block_e_decomp [0, 8, 0, 0, 0, 0, 0, 0] memZero).code = EC_SUCCESS ∧
    (block_e_decomp [0, 8, 0, 0, 0, 0, 0, 0] (fun i => if i = -1 then 7 else 0)).code =
      EC_CHECK_ERROR ∧
    (block_e_decomp [0, 8, 0, 0, 0, 0, 0, 0] (fun i => if i = 0 then 7 else 0)).code =
      EC_SUCCESS ∧
    (block_e_decomp [0, 8, 0, 0, 1, 0, 0, 0] memZero).out = [] ∧
    (block_e_decomp [0, 8, 0, 0, 1, 0, 0, 0] memZero).code = EC_SUCCESS ∧
    (block_e_decomp [0, 8, 0, 0, 1, 0, 0, 0] (fun i => if i = 0 then 7 else 0)).code =
      EC_CHECK_ERROR ∧
    (block_e_decomp [0, 8, 0, 0, 1, 0, 0, 0] (fun i => if i = -1 then 7 else 0)).code =
      EC_SUCCESS := by decide

/-! Claim C9: empty input to the encoder. -/

/-- Claim C9: `e_comp` with `insamp = 0` sets `*outbytes` to 0 and returns
`EC_SUCCESS` for every datatype pair — recognized or not — and for null
input/output buffers (and a null `outbytes`), because the `n = 0` no-op
return precedes the datatype and argument checks; and when `insamp ≠ 0` an
unrecognized tag (first character neither `e` (101) nor `E` (69), or a
second character outside the accepted digit range) produces
`EC_TYPE_ERROR`. -/
theorem e_comp_empty_input :
    (∀ (inNull outNull obNull : Bool) (input : List Int) (dt : Nat × Nat) (flag : Int),
      e_comp inNull outNull obNull input 0 dt flag = (EC_SUCCESS, 0, [])) ∧
    (∀ (inNull outNull obNull : Bool) (input : List Int) (dt : Nat × Nat) (flag insamp : Int),
      insamp ≠ 0 →
      ¬(dt.1 = 101 ∧ 0 ≤ (dt.2 : Int) - 48 ∧ (dt.2 : Int) - 48 ≤ 8) →
      ¬(dt.1 = 69 ∧ 0 ≤ (dt.2 : Int) - 48 ∧ (dt.2 : Int) - 48 ≤ 9) →
      e_comp inNull outNull obNull input insamp dt flag = (EC_TYPE_ERROR, 0, [])) := by
  constructor
  · intro inNull outNull obNull input dt flag
    rw [e_comp, if_pos rfl]
  · intro inNull outNull obNull input dt flag insamp hins he hE
    rw [e_comp, if_neg hins]
    have hopt : bufbytesFor dt = none := by
      rw [bufbytesFor]
      by_cases h101 : dt.1 = 101
      · rw [if_pos h101, if_pos (by omega)]
      · rw [if_neg h101]
        by_cases h69 : dt.1 = 69
        · rw [if_pos h69, if_pos (by omega)]
        · rw [if_neg h69]
    rw [hopt, Option.elim_none]

/-- Claim C9 (witness): the unknown tag `x4` is accepted with `insamp = 0`
and rejected with `EC_TYPE_ERROR` for `insamp = 5`. -/
theorem e_comp_empty_input_witness :
    e_comp true true true [] 0 (120, 52) EC_FULL_END = (EC_SUCCESS, 0, []) ∧
      e_comp false false false [1] 5 (120, 52) EC_FULL_END = (EC_TYPE_ERROR, 0, []) :=
  ⟨e_comp_empty_input.1 true true true [] (120, 52) EC_FULL_END,
    e_comp_empty_input.2 false false false [1] (120, 52) EC_FULL_END 5 (by decide)
      (by decide) (by decide)⟩

/-! Claim C8: fast versus correct VAX-single conversion in the transcoder.
The planner and the dispatcher disagree as claimed, but the correct variant
`f4tot4x` flushes VAX exponents 0 and 2 — not 1 and 2 — to exact zero. -/

/-- Claim C8 (counterexample): the f4 sample `80 00 00 00` has VAX exponent
1, and `f4tot4x` does not map it to exact zero (it produces
`ff 80 00 00`), so the claimed flush of the low-exponent region
"exponents 1 and 2" fails on exponent 1. -/
theorem f4tot4x_vax_exponent_one_counterexample :
    vaxExpF4 0x80 0x00 = 1 ∧
      f4tot4x [0x80, 0, 0, 0] 1 = [0xff, 0x80, 0, 0] ∧
      f4tot4x [0x80, 0, 0, 0] 1 ≠ [0, 0, 0, 0] := by decide

/-- Claim C8 (amended): `convfunc` plans the fast one-step chains
`[f4tot4]` for (f4, t4) and `[t4tof4]` for (t4, f4), while `convdata`
applies the correct variants `f4tot4x` / `t4tof4x`; the correct VAX→IEEE
variant maps the unconvertible region with VAX exponent 0 or 2 (not 1) to
exact zero, and the IEEE→VAX variant saturates overflowing exponents (above
0xfd) to the stored pattern `ff 7f ff ff`, the f4 byte-swapped view of
`7f ff ff ff`; consequently executing the chain returned by the planner can
give a different buffer than calling `convdata`, witnessed at
`80 00 00 00`. -/
theorem conv_f4t4_plan_vs_data :
    convfunc F4 T4 = ⟨CONV_SUCCESS, 4, 4, [some ConvPrim.f4tot4]⟩ ∧
    convfunc T4 F4 = ⟨CONV_SUCCESS, 4, 4, [some ConvPrim.t4tof4]⟩ ∧
    convdata F4 T4 = (CONV_SUCCESS, [some ConvPrim.f4tot4x]) ∧
    convdata T4 F4 = (CONV_SUCCESS, [some ConvPrim.t4tof4x]) ∧
    (∀ b0 b1 b2 b3 : Nat, ∀ rest : List Nat, ∀ n : Nat, b0 < 256 →
      vaxExpF4 b0 b1 = 0 ∨ vaxExpF4 b0 b1 = 2 →
      f4tot4x (b0 :: b1 :: b2 :: b3 :: rest) (n + 1) = 0 :: 0 :: 0 :: 0 :: f4tot4x rest n) ∧
    (∀ b0 b1 b2 b3 : Nat, ∀ rest : List Nat, ∀ n : Nat,
      ieeeExpT4 b0 b1 > 0xfd →
      t4tof4x (b0 :: b1 :: b2 :: b3 :: rest) (n + 1) =
        0xff :: 0x7f :: 0xff :: 0xff :: t4tof4x rest n) ∧
    (runChain (convfunc F4 T4).funcs [0x80, 0, 0, 0] 1 = some (f4tot4 [0x80, 0, 0, 0] 1) ∧
      runChain (convdata F4 T4).2 [0x80, 0, 0, 0] 1 = some (f4tot4x [0x80, 0, 0, 0] 1) ∧
      f4tot4 [0x80, 0, 0, 0] 1 ≠ f4tot4x [0x80, 0, 0, 0] 1) := by
  refine ⟨by decide, by decide, by decide, by decide, ?_, ?_, by decide⟩
  · intro b0 b1 b2 b3 rest n hb0 hexp
    have ha : b1 &&& 0x7f ≤ 0x7f := Nat.and_le_right
    have hc : b0 >>> 7 = b0 / 128 := by rw [Nat.shiftRight_eq_div_pow]
    have hcond : b1 &&& 0x7f < 2 ∧ b0 &&& 0x80 = 0 := by
      unfold vaxExpF4 at hexp
      have hdiv : b0 / 128 ≤ 1 := by omega
      have hlt : b0 < 128 := by omega
      refine ⟨by omega, ?_⟩
      rw [show (0x80 : Nat) = 2 ^ 7 by norm_num, Nat.and_two_pow,
        Nat.testBit_lt_two_pow (by omega)]
      rfl
    rw [f4tot4x, if_pos hcond]
  · intro b0 b1 b2 b3 rest n hexp
    unfold ieeeExpT4 at hexp
    rw [t4tof4x]
    rw [if_neg (by omega), if_pos (by omega)]

/-- Claim C8 (witness): flushes at VAX exponents 0 and 2 and the overflow
saturation, through the amended theorem. -/
theorem conv_f4t4_plan_vs_data_witness :
    f4tot4x [0x00, 0x01, 9, 9] 1 = [0, 0, 0, 0] ∧
      f4tot4x [0x7f, 0x80, 3, 4] 1 = [0, 0, 0, 0] ∧
      t4tof4x [0xff, 0, 1, 2] 1 = [0xff, 0x7f, 0xff, 0xff] :=
  ⟨conv_f4t4_plan_vs_data.2.2.2.2.1 0x00 0x01 9 9 [] 0 (by decide) (by decide),
    conv_f4t4_plan_vs_data.2.2.2.2.1 0x7f 0x80 3 4 [] 0 (by decide) (by decide),
    conv_f4t4_plan_vs_data.2.2.2.2.2.1 0xff 0 1 2 [] 0 (by decide)⟩

/-! Claim C6: g2 decoding.  Supporting lemmas relate the unrolled
`g2tos4` to a single-step descending loop and characterise that loop
pointwise. -/

theorem wrap32_bounds (x : Int) : -2 ^ 31 ≤ wrap32 x ∧ wrap32 x < 2 ^ 31 := by
  unfold wrap32; omega

theorem wrap32_eq_self (x : Int) (h1 : -2 ^ 31 ≤ x) (h2 : x < 2 ^ 31) : wrap32 x = x := by
  unfold wrap32; omega

theorem toU32_lt (x : Int) : toU32 x < 2 ^ 32 := by unfold toU32; omega

theorem ofU32_toU32 (x : Int) (h1 : -2 ^ 31 ≤ x) (h2 : x < 2 ^ 31) : ofU32 (toU32 x) = x := by
  simp only [ofU32, toU32]
  split <;> omega

theorem getD_set_other (l : List Nat) (n m a : Nat) (h : n ≠ m) :
    (l.set n a).getD m 0 = l.getD m 0 := by
  simp [List.getD, List.getElem?_set_ne h]

theorem getD_set_same (l : List Nat) (n a : Nat) (h : n < l.length) :
    (l.set n a).getD n 0 = a := by
  simp [List.getD, List.getElem?_set_self, h]

theorem g2step_length (hw : List Nat) (i : Nat) : (g2step hw i).length = hw.length := by
  simp [g2step, write32hw]

theorem g2desc_length (k : Nat) : ∀ hw : List Nat, (g2desc hw k).length = hw.length := by
  induction k with
  | zero => intro hw; rfl
  | succ k ih => intro hw; rw [g2desc, ih, g2step_length]

/-- Both loops of `g2tos4` visit indices in strictly descending order, so
the function agrees with the plain descending single-step loop. -/
theorem g2tos4_eq_desc : ∀ (n : Nat) (hw : List Nat), g2tos4 hw n = g2desc hw n
  | n + 10, hw => by
    simp only [g2tos4, g2desc]
    exact g2tos4_eq_desc n _
  | 9, hw => by simp only [g2tos4, g2desc]
  | 8, hw => by simp only [g2tos4, g2desc]
  | 7, hw => by simp only [g2tos4, g2desc]
  | 6, hw => by simp only [g2tos4, g2desc]
  | 5, hw => by simp only [g2tos4, g2desc]
  | 4, hw => by simp only [g2tos4, g2desc]
  | 3, hw => by simp only [g2tos4, g2desc]
  | 2, hw => by simp only [g2tos4, g2desc]
  | 1, hw => by simp only [g2tos4, g2desc]
  | 0, hw => rfl

/-- Pointwise description of the descending decode loop: halfwords below
`2 * k` hold the big-endian halves of the decoded 32-bit values, the rest
of the buffer is untouched. -/
theorem g2desc_getD (k : Nat) : ∀ (hw : List Nat) (j : Nat), 2 * k ≤ hw.length →
    (g2desc hw k).getD j 0 =
      if j < 2 * k then
        if j % 2 = 0 then toU32 (g2decode (readHW hw (j / 2))) / 2 ^ 16
        else toU32 (g2decode (readHW hw (j / 2))) % 2 ^ 16
      else hw.getD j 0 := by
  induction k with
  | zero => intro hw j _; simp [g2desc]
  | succ k ih =>
    intro hw j hlen
    have hlen2 : 2 * k ≤ (g2step hw k).length := by rw [g2step_length]; omega
    rw [g2desc, ih (g2step hw k) j hlen2]
    have hread : ∀ i : Nat, i < k → readHW (g2step hw k) i = readHW hw i := by
      intro i hi
      simp only [g2step, write32hw, readHW]
      rw [getD_set_other _ _ _ _ (by omega), getD_set_other _ _ _ _ (by omega)]
    have hat2k : (g2step hw k).getD (2 * k) 0 = toU32 (g2decode (readHW hw k)) / 2 ^ 16 := by
      simp only [g2step, write32hw]
      rw [getD_set_other _ _ _ _ (by omega), getD_set_same _ _ _ (by omega)]
    have hat2k1 : (g2step hw k).getD (2 * k + 1) 0 =
        toU32 (g2decode (readHW hw k)) % 2 ^ 16 := by
      simp only [g2step, write32hw]
      rw [getD_set_same]
      simp only [List.length_set]
      omega
    have hother : ∀ j : Nat, j ≠ 2 * k → j ≠ 2 * k + 1 →
        (g2step hw k).getD j 0 = hw.getD j 0 := by
      intro j h1 h2
      simp only [g2step, write32hw]
      rw [getD_set_other _ _ _ _ (by omega), getD_set_other _ _ _ _ (by omega)]
    rcases Nat.lt_or_ge j (2 * k) with hj | hj
    · have hcong : readHW (g2step hw k) (j / 2) = readHW hw (j / 2) := hread _ (by omega)
      rw [if_pos hj, if_pos (show j < 2 * (k + 1) by omega), hcong]
    · rcases Nat.lt_or_ge j (2 * (k + 1)) with hj2 | hj2
      · rcases Nat.eq_or_lt_of_le hj with hj3 | hj3
        · subst hj3
          rw [if_neg (by omega), if_pos (show 2 * k < 2 * (k + 1) by omega),
            if_pos (by omega), show 2 * k / 2 = k by omega]
          exact hat2k
        · have hj4 : j = 2 * k + 1 := by omega
          subst hj4
          rw [if_neg (by omega), if_pos (show 2 * k + 1 < 2 * (k + 1) by omega),
            if_neg (by omega), show (2 * k + 1) / 2 = k by omega]
          exact hat2k1
      · rw [if_neg (by omega), if_neg (show ¬j < 2 * (k + 1) by omega),
          hother j (by omega) (by omega)]

theorem gain_getD_le (j : Nat) : gain.getD j 0 ≤ 7 := by
  rcases j with _ | _ | _ | _ | j
  · decide
  · decide
  · decide
  · decide
  · rw [List.getD_eq_default]
    · omega
    · simp [gain]

theorem g2decode_bounds (raw : Nat) : -2 ^ 31 ≤ g2decode raw ∧ g2decode raw < 2 ^ 31 :=
  wrap32_bounds _

/-- Claim C6: `g2tos4` replaces each 16-bit raw sample with the 32-bit
value `((raw & 0x3fff) - 0x1fff) << gain[raw >> 14]` with
`gain = {0, 2, 4, 7}` (the wrap in `g2decode` is the identity, since the
value fits easily in 32 bits), and in particular raw `0x0000` decodes to
`-8191`, `0x3fff` to `8192`, `0x4000` to `-32764` and `0xc000` to
`-1048448`. -/
theorem g2tos4_decode :
    (∀ (hw : List Nat) (n i : Nat), 2 * n ≤ hw.length → i < n →
      read32hw (g2tos4 hw n) i = g2decode (readHW hw i)) ∧
    (∀ raw : Nat,
      g2decode raw = (((raw &&& 0x3fff : Nat) : Int) - 0x1fff) * 2 ^ gain.getD (raw >>> 14) 0) ∧
    g2decode 0x0000 = -8191 ∧ g2decode 0x3fff = 8192 ∧ g2decode 0x4000 = -32764 ∧
    g2decode 0xc000 = -1048448 := by
  refine ⟨?_, ?_, by decide, by decide, by decide, by decide⟩
  · intro hw n i hlen hi
    rw [g2tos4_eq_desc]
    unfold read32hw
    rw [g2desc_getD n hw (2 * i) hlen, g2desc_getD n hw (2 * i + 1) hlen,
      if_pos (show 2 * i < 2 * n by omega), if_pos (show 2 * i % 2 = 0 by omega),
      if_pos (show 2 * i + 1 < 2 * n by omega), if_neg (show ¬(2 * i + 1) % 2 = 0 by omega),
      show 2 * i / 2 = i by omega, show (2 * i + 1) / 2 = i by omega]
    have hrec : toU32 (g2decode (readHW hw i)) / 2 ^ 16 * 2 ^ 16 +
        toU32 (g2decode (readHW hw i)) % 2 ^ 16 = toU32 (g2decode (readHW hw i)) := by omega
    rw [hrec]
    exact ofU32_toU32 _ (g2decode_bounds _).1 (g2decode_bounds _).2
  · intro raw
    unfold g2decode
    have h1 : (raw &&& 0x3fff) ≤ 0x3fff := Nat.and_le_right
    have h2 : gain.getD (raw >>> 14) 0 ≤ 7 := gain_getD_le _
    apply wrap32_eq_self <;>
      (set s := gain.getD (raw >>> 14) 0 with hs
       interval_cases s <;> omega)

/-- Claim C6 (witness): a two-sample buffer decoding `0x4000` to `-32764`
and `0x3fff` to `8192`. -/
theorem g2tos4_decode_witness :
    read32hw (g2tos4 [0x4000, 0x3fff, 0, 0] 2) 0 = -32764 ∧
      read32hw (g2tos4 [0x4000, 0x3fff, 0, 0] 2) 1 = 8192 := by
  have h0 := g2tos4_decode.1 [0x4000, 0x3fff, 0, 0] 2 0 (by decide) (by decide)
  have h1 := g2tos4_decode.1 [0x4000, 0x3fff, 0, 0] 2 1 (by decide) (by decide)
  rw [h0, h1]
  exact ⟨by decide, by decide⟩

/-! Claim C1: helper lemmas about the encoder on an all-zero signal. -/

theorem getD_replicate_self {α : Type} (n i : Nat) (a : α) :
    (List.replicate n a).getD i a = a := by
  induction n generalizing i with
  | zero => simp [List.getD]
  | succ k ih =>
    cases i with
    | zero => simp [List.replicate_succ, List.getD]
    | succ j => simpa [List.replicate_succ, List.getD] using ih j

theorem zipWith_replicate_succ (f : Int → Int → Int) (k : Nat) (a b : Int) :
    List.zipWith f (List.replicate k a) (List.replicate (k + 1) b) =
      List.replicate k (f a b) := by
  induction k with
  | zero => rfl
  | succ m ih =>
    rw [List.replicate_succ, List.replicate_succ (n := m + 1), List.zipWith_cons_cons, ih,
      List.replicate_succ]

theorem dRow_replicate_zero (m : Nat) :
    dRow (List.replicate m (0 : Int)) = List.replicate m 0 := by
  cases m with
  | zero => rfl
  | succ k =>
    rw [List.replicate_succ]
    show (0 : Int) :: List.zipWith _ (List.replicate k 0) ((0 : Int) :: List.replicate k 0) = _
    rw [← List.replicate_succ, zipWith_replicate_succ,
      show wrap32 ((0 : Int) - 0) = 0 from by decide, List.replicate_succ]

theorem dRowN_replicate_zero (j m : Nat) :
    dRowN j (List.replicate m (0 : Int)) = List.replicate m 0 := by
  induction j with
  | zero => rfl
  | succ i ih => rw [dRowN, ih, dRow_replicate_zero]

theorem foldl_or_replicate_zero (k acc : Nat) :
    (List.replicate k (0 : Nat)).foldl (· ||| ·) acc = acc := by
  induction k generalizing acc with
  | zero => rfl
  | succ m ih => rw [List.replicate_succ, List.foldl_cons, Nat.or_zero, ih]

theorem foldl_add_replicate_zero (k acc : Nat) :
    (List.replicate k (0 : Nat)).foldl (· + ·) acc = acc := by
  induction k generalizing acc with
  | zero => rfl
  | succ m ih => rw [List.replicate_succ, List.foldl_cons, Nat.add_zero, ih]

theorem dmaxbit_zeros (m k : Nat) : dmaxbit (List.replicate m (0 : Int)) k = 0 := by
  rw [dmaxbit, List.take_replicate, List.map_replicate,
    show absU 0 = 0 from by decide, foldl_or_replicate_zero]

theorem dsum_zeros (m k : Nat) : dsum (List.replicate m (0 : Int)) k = 0 := by
  rw [dsum, List.take_replicate, List.map_replicate,
    show absU 0 = 0 from by decide, foldl_add_replicate_zero]

theorem dchooseOf_zeros (m k : Nat) (r1 r2 r3 r4 : List Int) :
    dchooseOf [List.replicate m 0, r1, r2, r3, r4] k = some 0 := by
  rw [dchooseOf,
    show [List.replicate m (0 : Int), r1, r2, r3, r4].length = 5 from rfl,
    show List.range 5 = [0, 1, 2, 3, 4] from by decide]
  exact List.find?_cons_of_pos _ (by simp [dmaxbit_zeros, List.getD_cons_zero, Nat.zero_and])

theorem dchooseRefine_zeros (m k : Nat) :
    dchooseRefine [List.replicate m (0 : Int), List.replicate m 0, List.replicate m 0,
      List.replicate m 0, List.replicate m 0] k 0 = 0 := by
  rw [dchooseRefine, show EC_MAX_NDIFF - 0 = 4 from rfl,
    show List.range' (0 + 1) 4 = [1, 2, 3, 4] from by decide]
  simp [dmaxbit_zeros, dsum_zeros, List.getD_cons_zero, List.getD_cons_succ]

theorem packEnc_nil (f w : Nat) : packEnc (f + 1) [] [] w = ([], 0) := by
  rw [packEnc, if_pos (show w = 0 ∨ ([] : List Int).length = 0 from Or.inr rfl)]

theorem packEnc_single_zero (f wleft : Nat) (hw : 1 ≤ wleft) :
    packEnc (f + 1 + 1) [0] [0] wleft = ([0xf0000000], 1) := by
  rw [packEnc,
    if_neg (by simp only [List.length_cons, List.length_nil]; omega),
    if_neg (by simp), if_neg (by simp), if_neg (by simp), if_neg (by simp),
    if_neg (by simp), if_pos (by decide),
    show ([(0 : Int)]).drop 1 = [] from rfl, show ([(0 : Nat)]).drop 1 = [] from rfl,
    packEnc_nil]
  decide

theorem packEnc_zeros (q : Nat) : ∀ fuel wleft : Nat, q + 2 ≤ fuel → q + 1 ≤ wleft →
    packEnc fuel (List.replicate (4 * q + 1) 0) (List.replicate (4 * q + 1) 0) wleft =
      (List.replicate q 0xc0000000 ++ [0xf0000000], 4 * q + 1) := by
  induction q with
  | zero =>
    intro fuel wleft hf hw
    obtain ⟨f, rfl⟩ : ∃ f, fuel = f + 1 + 1 := ⟨fuel - 2, by omega⟩
    rw [show 4 * 0 + 1 = 1 from rfl, show List.replicate 1 (0 : Int) = [0] from rfl,
      show List.replicate 1 (0 : Nat) = [0] from rfl, packEnc_single_zero f wleft (by omega)]
    simp
  | succ p ih =>
    intro fuel wleft hf hw
    obtain ⟨f, rfl⟩ : ∃ f, fuel = f + 1 := ⟨fuel - 1, by omega⟩
    rw [show 4 * (p + 1) + 1 = 4 * p + 5 from by ring]
    rw [packEnc,
      if_neg (by simp only [List.length_replicate]; omega),
      if_pos ⟨by simp only [List.length_replicate]; omega,
        by rw [getD_replicate_self]; decide, by rw [getD_replicate_self]; decide,
        by rw [getD_replicate_self]; decide, by rw [getD_replicate_self]; decide⟩,
      List.drop_replicate, List.drop_replicate,
      show 4 * p + 5 - 4 = 4 * p + 1 from by omega,
      ih f (wleft - 1) (by omega) (by omega),
      show List.replicate (p + 1) (0xc0000000 : Nat) =
        0xc0000000 :: List.replicate p 0xc0000000 from rfl,
      List.cons_append]
    simp only [Prod.mk.injEq, List.cons.injEq]
    refine ⟨⟨?_, trivial⟩, by omega⟩
    simp only [getD_replicate_self]
    decide

theorem d0Of_zeros :
    d0Of (List.replicate 4097 (0 : Int)) 4097 6144 = List.replicate 4097 0 := by
  rw [d0Of, show maxsampOf 4097 6144 = 4097 from by decide]
  have h1 : (fun i => wrap32 ((List.replicate 4097 (0 : Int)).getD i 0)) =
      fun _ => (0 : Int) := funext fun i => by rw [getD_replicate_self]; decide
  rw [h1, List.map_const', List.length_range]

theorem rowsOf_zeros :
    rowsOf (List.replicate 4097 (0 : Int)) 4097 6144 =
      [List.replicate 4097 0, List.replicate 4097 0, List.replicate 4097 0,
        List.replicate 4097 0, List.replicate 4097 0] := by
  rw [rowsOf, d0Of_zeros, dRowN_replicate_zero, dRowN_replicate_zero, dRowN_replicate_zero,
    dRowN_replicate_zero]

theorem rowAt_zeros :
    rowAt (List.replicate 4097 (0 : Int)) 4097 6144 1534 0 = List.replicate 4097 0 := by
  rw [rowAt, dchooseAt, rowsOf_zeros, show maxsampOf 4097 1534 = 1534 from by decide,
    dchooseRefine_zeros,
    show ([List.replicate 4097 (0 : Int), List.replicate 4097 0, List.replicate 4097 0,
      List.replicate 4097 0, List.replicate 4097 0].getD 0 []) = List.replicate 4097 (0 : Int)
      from rfl]

theorem pkAt_zeros :
    pkAt (List.replicate 4097 (0 : Int)) 4097 6144 1534 0 =
      (List.replicate 1024 0xc0000000 ++ [0xf0000000], 4097) := by
  rw [pkAt, rowAt_zeros, List.length_replicate, List.map_replicate,
    show absU 0 = 0 from by decide]
  have h := packEnc_zeros 1024 4097 1534 (by omega) (by omega)
  rw [show (4 * 1024 + 1 : Nat) = 4097 from by norm_num] at h
  exact h

theorem ctrlAt_zeros : ctrlAt (List.replicate 4097 (0 : Int)) 4097 6144 1534 0 = 0 := by
  rw [ctrlAt, dchooseAt, rowsOf_zeros, show maxsampOf 4097 1534 = 1534 from by decide,
    dchooseRefine_zeros, pkAt_zeros,
    show ((List.replicate 1024 (0xc0000000 : Nat) ++ [0xf0000000], (4097 : Nat))).2 = 4097
      from rfl, getD_replicate_self]
  decide

theorem e_comp_go_zeros :
    e_comp_go (List.replicate 4097 (0 : Int)) 4097 6144 1534 EC_FULL_END 0 =
      (true, 4097, 6144,
        [24, 0] ++ [16, 1] ++ be32 0 ++
          wordsToBytes (List.replicate 1024 0xc0000000 ++ [0xf0000000]) ++
          List.replicate 2036 0) := by
  rw [e_comp_go, pkAt_zeros,
    show ((List.replicate 1024 (0xc0000000 : Nat) ++ [0xf0000000], (4097 : Nat))).2 = 4097
      from rfl,
    show ((List.replicate 1024 (0xc0000000 : Nat) ++ [0xf0000000], (4097 : Nat))).1 =
      List.replicate 1024 0xc0000000 ++ [0xf0000000] from rfl,
    ctrlAt_zeros,
    if_pos (show (4097 : Int) - ((4097 : Nat) : Int) = 0 from by norm_num),
    if_neg (show ¬EC_FULL_END = EC_SHORT_END from by decide),
    List.length_append, List.length_replicate,
    show ([(0xf0000000 : Nat)]).length = 1 from rfl,
    show (6144 : Nat) - (8 + 4 * (1024 + 1)) = 2036 from by norm_num,
    show be16 6144 = [24, 0] from by decide, show be16 4097 = [16, 1] from by decide]

theorem e_comp_step_zeros :
    e_comp_step (List.replicate 4097 (0 : Int)) 4097 6144 1534 EC_FULL_END =
      (true, 4097, 6144,
        [24, 0] ++ [16, 1] ++ be32 0 ++
          wordsToBytes (List.replicate 1024 0xc0000000 ++ [0xf0000000]) ++
          List.replicate 2036 0) := by
  rw [e_comp_step, rowsOf_zeros, show maxsampOf 4097 1534 = 1534 from by decide,
    dchooseOf_zeros, Option.elim_some]
  show e_comp_go (List.replicate 4097 (0 : Int)) 4097 6144 1534 EC_FULL_END 0 = _
  exact e_comp_go_zeros

theorem e_comp_loop_zeros :
    e_comp_loop 4097 (List.replicate 4097 (0 : Int)) 4097 6144 1534 EC_FULL_END 0 [] =
      (EC_SUCCESS, 6144,
        24 :: 0 :: 16 :: 1 :: (be32 0 ++
          wordsToBytes (List.replicate 1024 0xc0000000 ++ [0xf0000000]) ++
          List.replicate 2036 0)) := by
  show e_comp_loop (4096 + 1) _ _ _ _ _ _ _ = _
  rw [e_comp_loop, if_neg (by norm_num), e_comp_step_zeros]
  rw [show ((true, (4097 : Nat), (6144 : Nat),
      [24, 0] ++ [16, 1] ++ be32 0 ++
        wordsToBytes (List.replicate 1024 0xc0000000 ++ [0xf0000000]) ++
        List.replicate 2036 0)).1 = true from rfl]
  rw [if_pos rfl]
  rw [show ((true, (4097 : Nat), (6144 : Nat),
      [24, 0] ++ [16, 1] ++ be32 0 ++
        wordsToBytes (List.replicate 1024 0xc0000000 ++ [0xf0000000]) ++
        List.replicate 2036 0)).2.2.1 = 6144 from rfl]
  rw [show ((true, (4097 : Nat), (6144 : Nat),
      [24, 0] ++ [16, 1] ++ be32 0 ++
        wordsToBytes (List.replicate 1024 0xc0000000 ++ [0xf0000000]) ++
        List.replicate 2036 0)).2.2.2 =
      [24, 0] ++ [16, 1] ++ be32 0 ++
        wordsToBytes (List.replicate 1024 0xc0000000 ++ [0xf0000000]) ++
        List.replicate 2036 0 from rfl]
  rw [show (0 : Int) + ((6144 : Nat) : Int) = 6144 from by norm_num, List.nil_append]
  rfl

theorem e_decomp_nsamp_over (rest : List Nat) :
    e_decomp (some (24 :: 0 :: 16 :: 1 :: rest)) false 4097 6144 0 4097 memZero =
      (EC_SAMP_ERROR, []) := by
  have hh : hdrAt (24 :: 0 :: 16 :: 1 :: rest) 1536 0 = .error EC_SAMP_ERROR := by
    rw [hdrAt]
    simp [readU16, List.getD, EC_MAX_BUFFER]
  rw [e_decomp, if_neg (by norm_num), if_neg (by simp)]
  simp only [Option.getD_some, show ((6144 : Int)).toNat / 4 = 1536 from by decide, hh]

/-- Claim C1: the E-codec round trip FAILS for some inputs that the encoder
accepts.  On the all-zero signal of 4097 samples with recognized tag `e3`
and `EC_FULL_END`, `e_comp` returns `EC_SUCCESS` and writes a single
compressed block whose 16-bit header sample count is 4097; but 4097 exceeds
the decoder header bound `EC_MAX_BUFFER / 4 = 4096`, so `e_decomp` applied
to the produced stream with `out0 = 0` and `outsamp = insamp = 4097`
rejects it with `EC_SAMP_ERROR` and writes nothing, instead of returning
the original signal. -/
theorem e_comp_roundtrip_bug :
    (e_comp false false false (List.replicate 4097 0) 4097 (101, 51) EC_FULL_END).1 =
      EC_SUCCESS ∧
    readU16 (e_comp false false false (List.replicate 4097 0) 4097 (101, 51) EC_FULL_END).2.2 2
      = 4097 ∧
    e_decomp (some (e_comp false false false (List.replicate 4097 0) 4097 (101, 51)
        EC_FULL_END).2.2) false 4097
      (e_comp false false false (List.replicate 4097 0) 4097 (101, 51) EC_FULL_END).2.1 0 4097
      memZero = (EC_SAMP_ERROR, []) := by
  have hcomp : e_comp false false false (List.replicate 4097 0) 4097 (101, 51) EC_FULL_END =
      (EC_SUCCESS, 6144, 24 :: 0 :: 16 :: 1 :: (be32 0 ++
        wordsToBytes (List.replicate 1024 0xc0000000 ++ [0xf0000000]) ++
        List.replicate 2036 0)) := by
    rw [e_comp, if_neg (by norm_num),
      show bufbytesFor (101, 51) = some 6144 from by decide, Option.elim_some]
    show (if (false : Bool) ∨ (false : Bool) ∨ (4097 : Int) ≤ 0 ∨ (false : Bool) then
        ((EC_ARG_ERROR : Int), (0 : Int), ([] : List Nat))
      else e_comp_loop (4097 : Int).toNat (List.replicate 4097 0) 4097 6144 (6144 / 4 - 2)
        EC_FULL_END 0 []) = _
    rw [if_neg (by simp), show ((4097 : Int)).toNat = 4097 from by decide,
      show (6144 : Nat) / 4 - 2 = 1534 from by decide, e_comp_loop_zeros]
  refine ⟨by rw [hcomp], ?_, ?_⟩
  · rw [hcomp]
    rfl
  · rw [hcomp]
    exact e_decomp_nsamp_over _

/-! Claim C2: helper lemmas for the seek-consistency proof.  A well-formed
chain of blocks decodes the same through the skip/copy loops of `e_decomp`
as by concatenating the block outputs and slicing. -/

theorem getD_drop (l : List Nat) (n i d : Nat) : (l.drop n).getD i d = l.getD (n + i) d := by
  simp [List.getD, List.getElem?_drop]

theorem readU16_drop (l : List Nat) (n i : Nat) : readU16 (l.drop n) i = readU16 l (n + i) := by
  rw [readU16, readU16, getD_drop, getD_drop, Nat.add_assoc]

theorem readU32_drop (l : List Nat) (n i : Nat) : readU32 (l.drop n) i = readU32 l (n + i) := by
  rw [readU32, readU32, getD_drop, getD_drop, getD_drop, getD_drop,
    show n + (i + 1) = n + i + 1 from by omega, show n + (i + 2) = n + i + 2 from by omega,
    show n + (i + 3) = n + i + 3 from by omega]

theorem undiffGo_length (l : List Nat) : ∀ p : Nat, (undiffGo p l).length = l.length := by
  induction l with
  | nil => intro p; rfl
  | cons y ys ih => intro p; rw [undiffGo, List.length_cons, List.length_cons, ih]

theorem undiffPass_length (l : List Nat) : (undiffPass l).length = l.length := by
  cases l with
  | nil => rfl
  | cons x xs => rw [undiffPass, List.length_cons, List.length_cons, undiffGo_length]

theorem undiffN_length (k : Nat) : ∀ l : List Nat, (undiffN k l).length = l.length := by
  induction k with
  | zero => intro l; rfl
  | succ j ih => intro l; rw [undiffN, ih, undiffPass_length]

theorem packetLoop_length (b : List Nat) :
    ∀ (fuel off samps nsamp : Nat) (cells : List Nat), cells.length = samps →
      ((packetLoop b fuel off samps nsamp cells).2).length =
        (packetLoop b fuel off samps nsamp cells).1 := by
  intro fuel
  induction fuel with
  | zero => intro off samps nsamp cells h; exact h
  | succ f ih =>
    intro off samps nsamp cells h
    rw [packetLoop]
    by_cases hs : samps < nsamp
    · rw [if_pos hs]
      rcases him : index_map.getD (readU32 b off >>> 28) 0 with _ | _ | _ | _ | _ | k
      all_goals simp only [him]
      all_goals exact ih _ _ _ _ (by simp [h])
    · rw [if_neg hs]; exact h

theorem block_out_length (b : List Nat) (mem : Int → Nat)
    (h : (block_e_decomp b mem).code = EC_SUCCESS) :
    (block_e_decomp b mem).out.length = readU16 b 2 ∧
      (block_e_decomp b mem).nsamp = readU16 b 2 := by
  rw [block_e_decomp] at h ⊢
  by_cases c1 : readU16 b 2 > EC_MAX_BUFFER / 4
  · rw [if_pos c1] at h; exact absurd h (by simp [EC_SAMP_ERROR, EC_SUCCESS])
  rw [if_neg c1] at h ⊢
  by_cases c2 : readU16 b 0 < 8 ∨ readU16 b 0 > EC_MAX_BUFFER
  · rw [if_pos c2] at h; exact absurd h (by simp [EC_LENGTH_ERROR, EC_SUCCESS])
  rw [if_neg c2] at h ⊢
  by_cases c3 : readU16 b 0 < readU16 b 2 + 8 ∨ readU16 b 0 > (readU16 b 2 + 2) * 4
  · rw [if_pos c3] at h; exact absurd h (by simp [EC_SAMP_ERROR, EC_SUCCESS])
  rw [if_neg c3] at h ⊢
  by_cases c4 : readU32 b 4 &&& EC_UNCOMP ≠ 0
  · rw [if_pos c4] at h ⊢
    by_cases c5 : readU16 b 0 ≠ (readU16 b 2 + 2) * 4
    · rw [if_pos c5] at h; exact absurd h (by simp [EC_LENGTH_ERROR, EC_SUCCESS])
    · rw [if_neg c5]; exact ⟨by simp, rfl⟩
  rw [if_neg c4] at h ⊢
  by_cases c6 : (readU32 b 4 &&& 0x0f000000) >>> 24 > EC_MAX_NDIFF
  · rw [if_pos c6] at h; exact absurd h (by simp [EC_DIFF_ERROR, EC_SUCCESS])
  rw [if_neg c6] at h ⊢
  by_cases c7 : (packetLoop b (readU16 b 2) 8 0 (readU16 b 2) []).1 ≠ readU16 b 2
  · rw [if_pos c7] at h; exact absurd h (by simp [EC_SAMP_ERROR, EC_SUCCESS])
  rw [if_neg c7] at h ⊢
  constructor
  · rw [apply_ite BlockRes.out, ite_self]
    show (undiffN _ (packetLoop b _ 8 0 _ []).2).length = _
    rw [undiffN_length, packetLoop_length b _ 8 0 _ [] rfl, not_not.mp c7]
  · rw [apply_ite BlockRes.nsamp, ite_self]

theorem block_mem_irrel (b : List Nat) (mem : Int → Nat) (h1 : 1 ≤ readU16 b 2) :
    block_e_decomp b mem = block_e_decomp b memZero := by
  rw [block_e_decomp, block_e_decomp]
  by_cases c1 : readU16 b 2 > EC_MAX_BUFFER / 4
  · rw [if_pos c1, if_pos c1]
  rw [if_neg c1, if_neg c1]
  by_cases c2 : readU16 b 0 < 8 ∨ readU16 b 0 > EC_MAX_BUFFER
  · rw [if_pos c2, if_pos c2]
  rw [if_neg c2, if_neg c2]
  by_cases c3 : readU16 b 0 < readU16 b 2 + 8 ∨ readU16 b 0 > (readU16 b 2 + 2) * 4
  · rw [if_pos c3, if_pos c3]
  rw [if_neg c3, if_neg c3]
  by_cases c4 : readU32 b 4 &&& EC_UNCOMP ≠ 0
  · rw [if_pos c4, if_pos c4]
  rw [if_neg c4, if_neg c4]
  by_cases c6 : (readU32 b 4 &&& 0x0f000000) >>> 24 > EC_MAX_NDIFF
  · rw [if_pos c6, if_pos c6]
  rw [if_neg c6, if_neg c6]
  by_cases c7 : (packetLoop b (readU16 b 2) 8 0 (readU16 b 2) []).1 ≠ readU16 b 2
  · rw [if_pos c7, if_pos c7]
  rw [if_neg c7, if_neg c7]
  have hpl : (packetLoop b (readU16 b 2) 8 0 (readU16 b 2) []).1 = readU16 b 2 :=
    not_not.mp c7
  have hlen : (undiffN ((readU32 b 4 &&& 0x0f000000) >>> 24)
      (packetLoop b (readU16 b 2) 8 0 (readU16 b 2) []).2).length = readU16 b 2 := by
    rw [undiffN_length, packetLoop_length b _ 8 0 _ [] rfl, hpl]
  have hpout : (if (readU32 b 4 &&& 0x0f000000) >>> 24 = 0 then
      ((packetLoop b (readU16 b 2) 8 0 (readU16 b 2) []).1 : Int)
    else max ((readU16 b 2 : Nat) : Int) 1) = ((readU16 b 2 : Nat) : Int) := by
    split
    · exact_mod_cast hpl
    · exact max_eq_left (by exact_mod_cast h1)
  rw [hpout]
  have hrc : ∀ m : Int → Nat,
      readCell (undiffN ((readU32 b 4 &&& 0x0f000000) >>> 24)
        (packetLoop b (readU16 b 2) 8 0 (readU16 b 2) []).2) m
        (((readU16 b 2 : Nat) : Int) - 1) =
      (undiffN ((readU32 b 4 &&& 0x0f000000) >>> 24)
        (packetLoop b (readU16 b 2) 8 0 (readU16 b 2) []).2).getD (readU16 b 2 - 1) 0 := by
    intro m
    rw [readCell, if_pos ⟨by omega, by rw [hlen]; omega⟩,
      show (((readU16 b 2 : Nat) : Int) - 1).toNat = readU16 b 2 - 1 from by omega]
  rw [hrc mem, hrc memZero]

theorem hdrAt_ok (inb : List Nat) (inwords pos pw ps : Nat)
    (h : hdrAt inb inwords pos = .ok (pw, ps)) :
    ps = readU16 inb (4 * pos + 2) ∧ 2 ≤ pw ∧ pos + pw ≤ inwords := by
  rw [hdrAt] at h
  by_cases c1 : readU16 inb (4 * pos + 2) > EC_MAX_BUFFER / 4
  · rw [if_pos c1] at h; exact absurd h (by simp)
  rw [if_neg c1] at h
  by_cases c2 : readU16 inb (4 * pos) < 8 ∨ readU16 inb (4 * pos) > EC_MAX_BUFFER
  · rw [if_pos c2] at h; exact absurd h (by simp)
  rw [if_neg c2] at h
  by_cases c3 : readU16 inb (4 * pos) < readU16 inb (4 * pos + 2) + 8 ∨
      readU16 inb (4 * pos) > (readU16 inb (4 * pos + 2) + 2) * 4
  · rw [if_pos c3] at h; exact absurd h (by simp)
  rw [if_neg c3] at h
  by_cases c4 : readU16 inb (4 * pos) % 4 ≠ 0
  · rw [if_pos c4] at h; exact absurd h (by simp)
  rw [if_neg c4] at h
  by_cases c5 : pos + readU16 inb (4 * pos) / 4 > inwords
  · rw [if_pos c5] at h; exact absurd h (by simp)
  rw [if_neg c5] at h
  obtain ⟨hpw, hps⟩ := Prod.mk.injEq .. ▸ Except.ok.inj h
  push_neg at c2
  refine ⟨hps.symm, ?_, ?_⟩ <;> omega

theorem seg_map (cells : List Nat) (mem : Int → Nat) (u : Nat) :
    ∀ d : Nat, u + d ≤ cells.length →
    (List.range d).map (fun k => ofU32 (readCell cells mem ((u + k : Nat) : Int))) =
      ((cells.map ofU32).drop u).take d := by
  intro d
  induction d with
  | zero => intro h; simp
  | succ e ih =>
    intro h
    rw [List.range_succ, List.map_append, ih (by omega), List.take_succ]
    congr 1
    have hlt : u + e < cells.length := by omega
    rw [List.getElem?_drop, List.getElem?_map, List.getElem?_eq_getElem hlt]
    show [ofU32 (readCell cells mem ((u + e : Nat) : Int))] = _
    rw [readCell, if_pos ⟨by omega, by push_cast; omega⟩,
      show (((u + e : Nat) : Int)).toNat = u + e from by omega]
    simp [List.getD, List.getElem?_eq_getElem hlt]

theorem wfChain_succ (inb : List Nat) (inwords fc pos remaining : Nat)
    (hwf : wfChain inb inwords (fc + 1) pos remaining = true) (hr : remaining ≠ 0) :
    ∃ pw ps, hdrAt inb inwords pos = .ok (pw, ps) ∧ ps ≠ 0 ∧
      (block_e_decomp (inb.drop (4 * pos)) memZero).code = EC_SUCCESS ∧
      wfChain inb inwords fc (pos + pw) (remaining - ps) = true := by
  rw [wfChain, if_neg hr] at hwf
  cases hh : hdrAt inb inwords pos with
  | error e => rw [hh] at hwf; exact absurd hwf (by simp)
  | ok pr =>
    obtain ⟨pw, ps⟩ := pr
    simp only [hh] at hwf
    by_cases hps : ps = 0
    · rw [if_pos hps] at hwf; exact absurd hwf (by simp)
    rw [if_neg hps] at hwf
    by_cases hbs : (block_e_decomp (inb.drop (4 * pos)) memZero).code = EC_SUCCESS
    · rw [if_pos hbs] at hwf; exact ⟨pw, ps, rfl, hps, hbs, hwf⟩
    · rw [if_neg hbs] at hwf; exact absurd hwf (by simp)

theorem chainOut_succ (inb : List Nat) (inwords fc pos remaining pw ps : Nat)
    (hr : remaining ≠ 0) (hh : hdrAt inb inwords pos = .ok (pw, ps)) (hps : ps ≠ 0) :
    chainOut inb inwords (fc + 1) pos remaining =
      (block_e_decomp (inb.drop (4 * pos)) memZero).out.map ofU32 ++
        chainOut inb inwords fc (pos + pw) (remaining - ps) := by
  rw [chainOut, if_neg hr]
  simp only [hh]
  rw [if_neg hps]

theorem copyLoop_chain (inb : List Nat) (inwords : Nat) (outsamp : Int) :
    ∀ fuelC : Nat, ∀ (fuelW pos pw ps remaining : Nat) (nsampAcc : Int) (unbuf0 : Nat)
      (written : List Int) (umem : Int → Nat),
      wfChain inb inwords fuelC pos remaining = true →
      hdrAt inb inwords pos = .ok (pw, ps) →
      unbuf0 < ps →
      0 < outsamp - nsampAcc →
      outsamp - nsampAcc ≤ (remaining : Int) - unbuf0 →
      inwords + 1 ≤ fuelW + pos →
      copyLoop inb inwords outsamp fuelW pos pw ps nsampAcc unbuf0 written umem =
        (EC_SUCCESS,
          written ++ ((chainOut inb inwords fuelC pos remaining).drop unbuf0).take
            (outsamp - nsampAcc).toNat) := by
  intro fuelC
  induction fuelC with
  | zero =>
    intro fuelW pos pw ps remaining nsampAcc unbuf0 written umem hwf hhdr hu hd hdem hfw
    have h0 : remaining = 0 := by simpa [wfChain] using hwf
    omega
  | succ fc ih =>
    intro fuelW pos pw ps remaining nsampAcc unbuf0 written umem hwf hhdr hu hd hdem hfw
    have hr0 : remaining ≠ 0 := by omega
    obtain ⟨pw', ps', hh', hps0, hbs, hwf'⟩ := wfChain_succ inb inwords fc pos remaining hwf hr0
    rw [hhdr] at hh'
    obtain ⟨rfl, rfl⟩ : pw = pw' ∧ ps = ps' := by
      have h2 := Except.ok.inj hh'
      exact ⟨congrArg Prod.fst h2, congrArg Prod.snd h2⟩
    obtain ⟨hpsr, hpw2, hposb⟩ := hdrAt_ok inb inwords pos pw ps hhdr
    have hps_drop : readU16 (inb.drop (4 * pos)) 2 = ps := by rw [readU16_drop, ← hpsr]
    have hmem : block_e_decomp (inb.drop (4 * pos)) umem =
        block_e_decomp (inb.drop (4 * pos)) memZero :=
      block_mem_irrel _ umem (by rw [hps_drop]; omega)
    obtain ⟨hlen, hnsamp⟩ := block_out_length (inb.drop (4 * pos)) memZero hbs
    have hlen' : (block_e_decomp (inb.drop (4 * pos)) memZero).out.length = ps := by
      rw [hlen, hps_drop]
    obtain ⟨fw, rfl⟩ : ∃ f, fuelW = f + 1 := ⟨fuelW - 1, by omega⟩
    rw [copyLoop]
    by_cases hcase : nsampAcc + ps - unbuf0 ≤ outsamp
    · rw [if_pos hcase, hmem, if_neg (not_not_intro hbs),
        seg_map _ _ _ _ (by rw [hlen']; omega)]
      by_cases heq : nsampAcc + ps - unbuf0 = outsamp
      · rw [if_pos heq,
          chainOut_succ inb inwords fc pos remaining pw ps hr0 hhdr hps0,
          List.drop_append_eq_append_drop, List.length_map, hlen',
          show unbuf0 - ps = 0 from by omega, List.drop_zero,
          List.take_append_eq_append_take, List.length_drop, List.length_map, hlen',
          show (outsamp - nsampAcc).toNat = ps - unbuf0 from by omega,
          show ps - unbuf0 - (ps - unbuf0) = 0 from by omega, List.take_zero,
          List.append_nil]
      · rw [if_neg heq]
        have hlt : (ps : Int) - unbuf0 < outsamp - nsampAcc := by omega
        have hrem : ps < remaining := by omega
        cases fc with
        | zero =>
          have h0 : remaining - ps = 0 := by simpa [wfChain] using hwf'
          omega
        | succ fc2 =>
          obtain ⟨pw2, ps2, hh2, hps02, hbs2, hwf2⟩ :=
            wfChain_succ inb inwords fc2 (pos + pw) (remaining - ps) hwf' (by omega)
          simp only [hh2]
          rw [ih fw (pos + pw) pw2 ps2 (remaining - ps) (nsampAcc + ps - unbuf0) 0 _ _
            hwf' hh2 (by omega) (by omega) (by push_cast; omega) (by omega)]
          rw [List.drop_zero,
            chainOut_succ inb inwords (fc2 + 1) pos remaining pw ps hr0 hhdr hps0,
            List.drop_append_eq_append_drop, List.length_map, hlen',
            show unbuf0 - ps = 0 from by omega, List.drop_zero,
            List.take_append_eq_append_take, List.length_drop, List.length_map, hlen']
          have htk : ((List.map ofU32
                (block_e_decomp (List.drop (4 * pos) inb) memZero).out).drop unbuf0).take
              (outsamp - nsampAcc).toNat =
              (List.map ofU32
                (block_e_decomp (List.drop (4 * pos) inb) memZero).out).drop unbuf0 :=
            List.take_of_length_le (by rw [List.length_drop, List.length_map, hlen']; omega)
          have hseg : ((List.map ofU32
                (block_e_decomp (List.drop (4 * pos) inb) memZero).out).drop unbuf0).take
              (ps - unbuf0) =
              (List.map ofU32
                (block_e_decomp (List.drop (4 * pos) inb) memZero).out).drop unbuf0 :=
            List.take_of_length_le (by rw [List.length_drop, List.length_map, hlen'])
          rw [htk, hseg,
            show (outsamp - nsampAcc).toNat - (ps - unbuf0) =
              (outsamp - (nsampAcc + ps - unbuf0)).toNat from by omega,
            List.append_assoc]
    · rw [if_neg hcase, if_pos (show nsampAcc < outsamp from by omega), hmem,
        if_neg (not_not_intro hbs),
        seg_map _ _ _ _ (by rw [hlen']; omega),
        chainOut_succ inb inwords fc pos remaining pw ps hr0 hhdr hps0,
        List.drop_append_eq_append_drop, List.length_map, hlen',
        show unbuf0 - ps = 0 from by omega, List.drop_zero,
        List.take_append_eq_append_take, List.length_drop, List.length_map, hlen',
        show (outsamp - nsampAcc).toNat - (ps - unbuf0) = 0 from by omega, List.take_zero,
        List.append_nil]

theorem skipLoop_chain (inb : List Nat) (inwords : Nat) (out0 : Int) :
    ∀ fuelC : Nat, ∀ (fuelW pos pw ps skipsamp remaining : Nat),
      wfChain inb inwords fuelC pos remaining = true →
      hdrAt inb inwords pos = .ok (pw, ps) →
      (skipsamp : Int) ≤ out0 →
      out0 < (skipsamp : Int) + remaining →
      inwords + 1 ≤ fuelW + pos →
      ∃ pos2 pw2 ps2 skip2 fuelC2 remaining2,
        skipLoop inb inwords out0 fuelW pos pw ps skipsamp = .ok (pos2, pw2, ps2, skip2) ∧
        hdrAt inb inwords pos2 = .ok (pw2, ps2) ∧
        wfChain inb inwords fuelC2 pos2 remaining2 = true ∧
        (skip2 : Int) ≤ out0 ∧ out0 < (skip2 : Int) + ps2 ∧
        skipsamp + remaining = skip2 + remaining2 ∧
        ((chainOut inb inwords fuelC pos remaining).drop (out0 - skipsamp).toNat) =
          ((chainOut inb inwords fuelC2 pos2 remaining2).drop (out0 - skip2).toNat) := by
  intro fuelC
  induction fuelC with
  | zero =>
    intro fuelW pos pw ps skipsamp remaining hwf hhdr hsk hcov hfw
    have h0 : remaining = 0 := by simpa [wfChain] using hwf
    omega
  | succ fc ih =>
    intro fuelW pos pw ps skipsamp remaining hwf hhdr hsk hcov hfw
    have hr0 : remaining ≠ 0 := by omega
    obtain ⟨pw', ps', hh', hps0, hbs, hwf'⟩ := wfChain_succ inb inwords fc pos remaining hwf hr0
    rw [hhdr] at hh'
    obtain ⟨rfl, rfl⟩ : pw = pw' ∧ ps = ps' := by
      have h2 := Except.ok.inj hh'
      exact ⟨congrArg Prod.fst h2, congrArg Prod.snd h2⟩
    obtain ⟨hpsr, hpw2, hposb⟩ := hdrAt_ok inb inwords pos pw ps hhdr
    obtain ⟨fw, rfl⟩ : ∃ f, fuelW = f + 1 := ⟨fuelW - 1, by omega⟩
    rw [skipLoop]
    by_cases hskip : (skipsamp : Int) + ps ≤ out0
    · rw [if_pos hskip]
      have hpsrem : ps < remaining := by omega
      cases fc with
      | zero =>
        have h0 : remaining - ps = 0 := by simpa [wfChain] using hwf'
        omega
      | succ fc2 =>
        obtain ⟨pw2, ps2, hh2, hps02, hbs2, hwf2⟩ :=
          wfChain_succ inb inwords fc2 (pos + pw) (remaining - ps) hwf' (by omega)
        simp only [hh2]
        obtain ⟨pos3, pw3, ps3, skip3, fc3, rem3, hloop, hhdr3, hwf3, hsk3, hcov3, hsum3,
          hdropeq⟩ :=
          ih fw (pos + pw) pw2 ps2 (skipsamp + ps) (remaining - ps) hwf' hh2
            (by push_cast; omega) (by push_cast; omega) (by omega)
        refine ⟨pos3, pw3, ps3, skip3, fc3, rem3, hloop, hhdr3, hwf3, hsk3, hcov3,
          by omega, ?_⟩
        rw [chainOut_succ inb inwords (fc2 + 1) pos remaining pw ps hr0 hhdr hps0,
          List.drop_append_eq_append_drop]
        have hAlen : ((block_e_decomp (inb.drop (4 * pos)) memZero).out.map ofU32).length
            = ps := by
          rw [List.length_map, (block_out_length _ _ hbs).1, readU16_drop, ← hpsr]
        rw [List.drop_of_length_le (by rw [hAlen]; omega), List.nil_append, hAlen,
          show (out0 - skipsamp).toNat - ps = (out0 - ((skipsamp + ps : Nat) : Int)).toNat
            from by push_cast; omega]
        exact hdropeq
    · rw [if_neg hskip]
      exact ⟨pos, pw, ps, skipsamp, fc + 1, remaining, rfl, hhdr, hwf, hsk, by omega,
        rfl, rfl⟩

theorem e_decomp_chain (inb : List Nat) (insamp inbyte out0 outsamp : Int) (umem : Int → Nat)
    (hwf : wfChain inb (inbyte.toNat / 4) insamp.toNat 0 insamp.toNat = true)
    (hin : 0 < insamp) (hib : 0 < inbyte) (h0 : 0 ≤ out0) (h1 : 0 < outsamp)
    (h2 : out0 + outsamp ≤ insamp) :
    e_decomp (some inb) false insamp inbyte out0 outsamp umem =
      (EC_SUCCESS,
        ((chainOut inb (inbyte.toNat / 4) insamp.toNat 0 insamp.toNat).drop out0.toNat).take
          outsamp.toNat) := by
  rw [e_decomp, if_neg (by omega), if_neg (by
    rintro (h | h | h | h | h | h | h | h)
    · simp at h
    · simp at h
    · omega
    · omega
    · omega
    · omega
    · omega
    · omega)]
  simp only [Option.getD_some]
  obtain ⟨fc, hfc⟩ : ∃ fc, insamp.toNat = fc + 1 := ⟨insamp.toNat - 1, by omega⟩
  rw [hfc] at hwf ⊢
  obtain ⟨pw0, ps0, hh0, hps00, hbs0, hwf0⟩ :=
    wfChain_succ inb (inbyte.toNat / 4) fc 0 (fc + 1) hwf (by omega)
  simp only [hh0]
  obtain ⟨pos2, pw2, ps2, skip2, fc2, rem2, hloop, hhdr2, hwf2, hsk2, hcov2, hsum2, hdropeq⟩ :=
    skipLoop_chain inb (inbyte.toNat / 4) out0 (fc + 1) (inbyte.toNat / 4 + 1) 0 pw0 ps0 0
      (fc + 1) hwf hh0 (by omega) (by omega) (by omega)
  simp only [hloop]
  rw [copyLoop_chain inb (inbyte.toNat / 4) outsamp fc2 (inbyte.toNat / 4 + 1) pos2 pw2 ps2
    rem2 0 ((out0 - skip2).toNat) [] umem hwf2 hhdr2 (by omega) (by omega) (by omega)
    (by omega)]
  rw [List.nil_append, show (outsamp - 0).toNat = outsamp.toNat from by omega]
  have hd2 : ((out0 - ((0 : Nat) : Int)).toNat) = out0.toNat := by omega
  rw [hd2] at hdropeq
  rw [← hdropeq]

/-- Claim C2: seek consistency of the stream decoder.  For every compressed
stream that parses as a well-formed chain of successfully-decoding blocks
covering `insamp` samples (`wfChain`), and every window with `0 ≤ out0`,
`1 ≤ outsamp` and `out0 + outsamp ≤ insamp`, `e_decomp` returns
`EC_SUCCESS`, the full-range call (`out0 = 0`, `outsamp = insamp`) also
returns `EC_SUCCESS`, and the window's output equals positions
`out0 .. out0 + outsamp - 1` of the full decode — for any initial scratch
memories. -/
theorem e_decomp_seek (inb : List Nat) (insamp inbyte out0 outsamp : Int)
    (umem1 umem2 : Int → Nat)
    (hwf : wfChain inb (inbyte.toNat / 4) insamp.toNat 0 insamp.toNat = true)
    (hin : 0 < insamp) (hib : 0 < inbyte) (h0 : 0 ≤ out0) (h1 : 1 ≤ outsamp)
    (h2 : out0 + outsamp ≤ insamp) :
    (e_decomp (some inb) false insamp inbyte out0 outsamp umem1).1 = EC_SUCCESS ∧
    (e_decomp (some inb) false insamp inbyte 0 insamp umem2).1 = EC_SUCCESS ∧
    (e_decomp (some inb) false insamp inbyte out0 outsamp umem1).2 =
      ((e_decomp (some inb) false insamp inbyte 0 insamp umem2).2.drop out0.toNat).take
        outsamp.toNat := by
  have hwin := e_decomp_chain inb insamp inbyte out0 outsamp umem1 hwf hin hib h0
    (by omega) h2
  have hfull := e_decomp_chain inb insamp inbyte 0 insamp umem2 hwf hin hib (by omega)
    (by omega) (by omega)
  rw [hwin, hfull]
  refine ⟨rfl, rfl, ?_⟩
  show _ = ((((chainOut inb (inbyte.toNat / 4) insamp.toNat 0 insamp.toNat).drop
    (0 : Int).toNat).take insamp.toNat).drop out0.toNat).take outsamp.toNat
  rw [show (0 : Int).toNat = 0 from rfl, List.drop_zero, List.drop_take, List.take_take,
    show min outsamp.toNat (insamp.toNat - out0.toNat) = outsamp.toNat from by omega]

/-- Claim C2 (witness): a stream of two 12-byte compressed blocks of one
sample each (values 5 and 7); seeking the window `out0 = 1`, `outsamp = 1`
succeeds and matches the corresponding slice of the full decode. -/
theorem e_decomp_seek_witness :
    wfChain [0, 12, 0, 1, 0, 0, 0, 5, 0xf0, 0, 0, 5, 0, 12, 0, 1, 0, 0, 0, 7, 0xf0, 0, 0, 7]
        ((24 : Int).toNat / 4) (2 : Int).toNat 0 (2 : Int).toNat = true ∧
    ((e_decomp
        (some [0, 12, 0, 1, 0, 0, 0, 5, 0xf0, 0, 0, 5, 0, 12, 0, 1, 0, 0, 0, 7, 0xf0, 0, 0, 7])
        false 2 24 1 1 memZero).1 = EC_SUCCESS ∧
      (e_decomp
        (some [0, 12, 0, 1, 0, 0, 0, 5, 0xf0, 0, 0, 5, 0, 12, 0, 1, 0, 0, 0, 7, 0xf0, 0, 0, 7])
        false 2 24 0 2 memZero).1 = EC_SUCCESS ∧
      (e_decomp
        (some [0, 12, 0, 1, 0, 0, 0, 5, 0xf0, 0, 0, 5, 0, 12, 0, 1, 0, 0, 0, 7, 0xf0, 0, 0, 7])
        false 2 24 1 1 memZero).2 =
        ((e_decomp
          (some [0, 12, 0, 1, 0, 0, 0, 5, 0xf0, 0, 0, 5, 0, 12, 0, 1, 0, 0, 0, 7, 0xf0, 0, 0, 7])
          false 2 24 0 2 memZero).2.drop (1 : Int).toNat).take (1 : Int).toNat) :=
  ⟨by decide,
    e_decomp_seek [0, 12, 0, 1, 0, 0, 0, 5, 0xf0, 0, 0, 5, 0, 12, 0, 1, 0, 0, 0, 7, 0xf0, 0, 0, 7]
      2 24 1 1 memZero memZero (by decide) (by decide) (by decide) (by decide) (by decide)
      (by decide)⟩

/-- Claim C7: g2 encoding is NOT grouping-independent.  On the buffer whose
sample 0 is `0x00200000` (too large for every gain tier), the unrolled
`n > 4` path of `s4tog2` leaves output halfword 0 at its stale value
`0x0020` — its slot-0 saturating branch stores `0xffff` into `s[1]`
instead of `s[0]` (g2s4.c line 96) — while processing the same sample
through the per-sample tail path (`n = 4`) stores `0xffff` into `s[0]`,
which is also what the per-sample encoder `s4tog2enc` prescribes. -/
theorem s4tog2_group_slot0_bug :
    (s4tog2 [0x0020, 0, 0, 0, 0, 0, 0, 0, 0, 0] 5).getD 0 0 = 0x0020 ∧
      (s4tog2 [0x0020, 0, 0, 0, 0, 0, 0, 0, 0, 0] 4).getD 0 0 = 0xffff ∧
      s4tog2enc (read32hw [0x0020, 0, 0, 0, 0, 0, 0, 0, 0, 0] 0) = 0xffff ∧
      g2fits (read32hw [0x0020, 0, 0, 0, 0, 0, 0, 0, 0, 0] 0) = false := by
  decide

end Pisces
